import Mathlib

/-!
Verification development for the cbor_test repository (src/src/arduino.rs,
src/src/model.rs): a host-side serial framing codec with CRC-16/USB
protected, CBOR-payloaded records transported in COBS-delimited frames,
plus the byte-oriented receive loop that reassembles them.

Bytes are modelled as natural numbers; every value written by the Rust
code is a u8 and the definitions take lists of naturals, with explicit
`< 256` hypotheses on theorems where the arithmetic depends on it.
External crates (crc, cobs, serde_cbor) are well-defined primitives the
spec consumes as dependencies; they are modelled here by executable
functions implementing the documented algorithms (CRC-16/USB, standard
COBS byte stuffing, RFC 8949 CBOR with definite lengths and ASCII text).
-/

namespace CborTest

/-- Action enum from src/src/model.rs: SEND 0xAA, READ 0xA8, GIGA 0xAE, NONE 0x00. -/
inductive Action where
  | SEND
  | READ
  | GIGA
  | NONE
deriving DecidableEq, Repr

/-- Command enum from src/src/model.rs: NONE 0x00 through SensorLOW 0x07. -/
inductive Command where
  | NONE
  | ACK
  | NACK
  | MOTOR
  | SetID
  | FILE
  | Sensor
  | SensorLOW
deriving DecidableEq, Repr

/-- The discriminant of the Action enum (Rust: action as u8). -/
def Action.toByte : Action → Nat
  | .SEND => 0xaa
  | .READ => 0xa8
  | .GIGA => 0xae
  | .NONE => 0x00

/-- The discriminant of the Command enum (Rust: command as u8). -/
def Command.toByte : Command → Nat
  | .NONE => 0x00
  | .ACK => 0x01
  | .NACK => 0x02
  | .MOTOR => 0x03
  | .SetID => 0x04
  | .FILE => 0x05
  | .Sensor => 0x06
  | .SensorLOW => 0x07

/-- TryFrom of u8 for Action (src/src/model.rs lines 14-26): only the four
discriminants succeed, anything else is an error. -/
def actionTryFrom (b : Nat) : Option Action :=
  if b = 0xaa then some .SEND
  else if b = 0xa8 then some .READ
  else if b = 0xae then some .GIGA
  else if b = 0x00 then some .NONE
  else none

/-- TryFrom of u8 for Command (src/src/model.rs lines 47-63). -/
def commandTryFrom (b : Nat) : Option Command :=
  if b = 0x00 then some .NONE
  else if b = 0x01 then some .ACK
  else if b = 0x02 then some .NACK
  else if b = 0x03 then some .MOTOR
  else if b = 0x04 then some .SetID
  else if b = 0x05 then some .FILE
  else if b = 0x06 then some .Sensor
  else if b = 0x07 then some .SensorLOW
  else none

/-- START_BYTE constant (src/src/arduino.rs line 16). -/
def START_BYTE : List Nat := [0x7e]

/-- MAX_DATA_LEN constant (src/src/arduino.rs line 17). -/
def MAX_DATA_LEN : Nat := 1024

/-- One shift of the reflected CRC-16 register: poly 0x8005 reflected to
0xA001. -/
def crc16Shift (x : Nat) : Nat :=
  if x % 2 = 1 then (x >>> 1) ^^^ 0xA001 else x >>> 1

/-- One step of the reflected CRC-16/USB (the crc crate's CRC_16_USB,
processing one byte: xor it in, then shift eight times). -/
def crc16UsbStep (crc b : Nat) : Nat :=
  crc16Shift (crc16Shift (crc16Shift (crc16Shift
    (crc16Shift (crc16Shift (crc16Shift (crc16Shift (crc ^^^ b))))))))

/-- CRC-16/USB checksum of a byte list: init 0xFFFF, reflect in and out,
final xor 0xFFFF (crc crate, CRC_16_USB parameters). -/
def crc16Usb (data : List Nat) : Nat :=
  (data.foldl crc16UsbStep 0xFFFF) ^^^ 0xFFFF

/-- Little-endian encoding of a u16 value (Rust u16::to_le_bytes). -/
def u16ToLeBytes (x : Nat) : List Nat := [x % 256, x / 256 % 256]

/-- Little-endian decoding of two bytes (Rust u16::from_le_bytes). -/
def u16FromLeBytes (lo hi : Nat) : Nat := lo + 256 * hi

/-- COBS encoder worker, mirroring the byte-at-a-time cobs crate encoder:
block is the pending group of non-zero bytes; a zero byte or a full group
of 254 bytes finishes the group, emitting its length-plus-one code byte in
front of its data; at end of input the pending group is always emitted. -/
def cobsEncGo (block : List Nat) : List Nat → List Nat
  | [] => (block.length + 1) :: block
  | x :: rest =>
    if x = 0 then (block.length + 1) :: (block ++ cobsEncGo [] rest)
    else if block.length = 253 then 255 :: ((block ++ [x]) ++ cobsEncGo [] rest)
    else cobsEncGo (block ++ [x]) rest

/-- COBS encoding of a byte list (cobs crate encode: output bytes only,
no delimiters added). -/
def cobsEncode (l : List Nat) : List Nat := cobsEncGo [] l

/-- COBS decoder worker, mirroring the byte-at-a-time cobs crate decoder.
State: full says whether the group just finished had code 0xFF (no zero is
reinserted after such a group), remaining counts data bytes still owed in
the current group. A zero byte in the source, a source ending inside a
group, or a zero code byte is a decode error. -/
def cobsDecGo : List Nat → Bool → Nat → Option (List Nat)
  | [], _, remaining => if remaining = 0 then some [] else none
  | x :: rest, full, 0 =>
    if x = 0 then none
    else (cobsDecGo rest (x = 255) (x - 1)).map
      (fun d => if full then d else 0 :: d)
  | x :: rest, full, n + 1 =>
    if x = 0 then none
    else (cobsDecGo rest full n).map (fun d => x :: d)

/-- COBS decoding of a delimiter-free byte list (cobs crate decode). -/
def cobsDecode (l : List Nat) : Option (List Nat) := cobsDecGo l true 0

/-- CBOR values as decoded by serde_cbor (its Value enum): floats keep the
raw bit pattern together with the width byte count, since nothing in the
repository inspects a float numerically. -/
inductive CborValue where
  | null
  | bool (b : Bool)
  | integer (i : Int)
  | float (width bits : Nat)
  | bytes (bs : List Nat)
  | text (s : String)
  | array (vs : List CborValue)
  | map (entries : List (CborValue × CborValue))
  | tagged (t : Nat) (v : CborValue)

/-- Read a big-endian unsigned integer of the given byte count from the
front of the input. -/
def readUintBE : Nat → List Nat → Option (Nat × List Nat)
  | 0, l => some (0, l)
  | _ + 1, [] => none
  | n + 1, b :: rest =>
    (readUintBE n rest).map (fun p => (b * 256 ^ n + p.1, p.2))

/-- Decode a CBOR argument from the additional-information bits: values
below 24 are immediate, 24 through 27 read 1, 2, 4 or 8 further bytes;
28 through 31 (reserved and indefinite-length) are rejected, matching
the definite-length fragment of serde_cbor that this repository uses. -/
def parseArg (ai : Nat) (rest : List Nat) : Option (Nat × List Nat) :=
  if ai < 24 then some (ai, rest)
  else if ai = 24 then readUintBE 1 rest
  else if ai = 25 then readUintBE 2 rest
  else if ai = 26 then readUintBE 4 rest
  else if ai = 27 then readUintBE 8 rest
  else none

/-- Decode CBOR text bytes. serde_cbor validates UTF-8; this model covers
its ASCII fragment (every key the repository exchanges is ASCII) and
rejects bytes of 128 and above. -/
def decodeAsciiText (bs : List Nat) : Option String :=
  if bs.all (· < 128) then some (String.mk (bs.map Char.ofNat)) else none

/-- Parse a fixed number of items with the supplied parser, returning the
items and the remaining input. -/
def parseCount {α : Type} (p : List Nat → Option (α × List Nat)) :
    Nat → List Nat → Option (List α × List Nat)
  | 0, r => some ([], r)
  | n + 1, r =>
    (p r).bind fun vr =>
      (parseCount p n vr.2).map fun vsr => (vr.1 :: vsr.1, vsr.2)

/-- Recursive-descent CBOR item parser (RFC 8949 major types, definite
lengths), fuelled to make the nesting recursion structural; every nesting
level consumes at least the one header byte, so fuel of input length plus
one never runs out. -/
def parseValue : Nat → List Nat → Option (CborValue × List Nat)
  | 0, _ => none
  | _ + 1, [] => none
  | fuel + 1, b :: rest =>
    let mt := b / 32
    let ai := b % 32
    if mt = 0 then
      (parseArg ai rest).map (fun nr => (.integer (Int.ofNat nr.1), nr.2))
    else if mt = 1 then
      (parseArg ai rest).map (fun nr => (.integer (-1 - Int.ofNat nr.1), nr.2))
    else if mt = 2 then
      (parseArg ai rest).bind fun nr =>
        if nr.2.length < nr.1 then none
        else some (.bytes (nr.2.take nr.1), nr.2.drop nr.1)
    else if mt = 3 then
      (parseArg ai rest).bind fun nr =>
        if nr.2.length < nr.1 then none
        else (decodeAsciiText (nr.2.take nr.1)).map
          (fun s => (.text s, nr.2.drop nr.1))
    else if mt = 4 then
      (parseArg ai rest).bind fun nr =>
        (parseCount (fun r => parseValue fuel r) nr.1 nr.2).map
          (fun vr => (.array vr.1, vr.2))
    else if mt = 5 then
      (parseArg ai rest).bind fun nr =>
        (parseCount
          (fun r =>
            (parseValue fuel r).bind fun kr =>
              (parseValue fuel kr.2).map fun vr => ((kr.1, vr.1), vr.2))
          nr.1 nr.2).map (fun er => (.map er.1, er.2))
    else if mt = 6 then
      (parseArg ai rest).bind fun nr =>
        (parseValue fuel nr.2).map (fun vr => (.tagged nr.1 vr.1, vr.2))
    else
      if ai = 20 then some (.bool false, rest)
      else if ai = 21 then some (.bool true, rest)
      else if ai = 22 then some (.null, rest)
      else if ai = 23 then some (.null, rest)
      else if ai = 25 then (readUintBE 2 rest).map (fun nr => (.float 2 nr.1, nr.2))
      else if ai = 26 then (readUintBE 4 rest).map (fun nr => (.float 4 nr.1, nr.2))
      else if ai = 27 then (readUintBE 8 rest).map (fun nr => (.float 8 nr.1, nr.2))
      else none

/-- Insert a key into a string map with overwrite, modelling HashMap
insert: an existing binding is replaced in place, a new key appended. -/
def insertStr (m : List (String × CborValue)) (k : String) (v : CborValue) :
    List (String × CborValue) :=
  if m.any (fun p => p.1 = k) then
    m.map (fun p => if p.1 = k then (k, v) else p)
  else m ++ [(k, v)]

/-- Build the String-keyed map from parsed CBOR map entries; a non-text
key makes the whole deserialization fail, as serde does when driving a
HashMap with String keys. -/
def stringMapOfEntries (es : List (CborValue × CborValue)) :
    Option (List (String × CborValue)) :=
  es.foldlM
    (fun m kv =>
      match kv.1 with
      | .text s => some (insertStr m s kv.2)
      | _ => none)
    []

/-- Model of serde_cbor::from_slice::<HashMap<String, Value>>: parse one
CBOR item, require it to consume the whole input, be a map, and have text
keys. -/
def cborFromSliceStringMap (l : List Nat) : Option (List (String × CborValue)) :=
  match parseValue (l.length + 1) l with
  | some (.map es, []) => stringMapOfEntries es
  | _ => none

/-- Decoded record struct Message from src/src/model.rs (payload modelled
as the association list of the decoded HashMap). -/
structure Message where
  action : Action
  command : Command
  payloadSizeBytes : List Nat
  payloadSize : Nat
  payloadBytes : List Nat
  payload : List (String × CborValue)
  crcBytes : List Nat
  crc : Nat

/-- The error classes decode_message can return. -/
inductive DecodeErr where
  | shortFrame
  | cborError
  | crcMismatch
deriving DecidableEq, Repr

/-- Outcome of decode_message: an Ok record, an Err value, or a Rust
panic (the unchecked slice frame[4..4+payload_size]). -/
inductive DecodeResult where
  | panicked
  | fail (e : DecodeErr)
  | ok (m : Message)

/-- decode_message from src/src/arduino.rs lines 526-567, step for step:
length check, lenient action and command parse, little-endian length,
unchecked payload slice (a declared length beyond the buffer panics),
CBOR decode of the declared payload, then the CRC check over
frame[2..frame_size-2] against the little-endian stored CRC. -/
def decodeMessage (frame : List Nat) : DecodeResult :=
  let frameSize := frame.length
  if frameSize < 6 then .fail .shortFrame
  else
    let action := (actionTryFrom (frame.getD 0 0)).getD .NONE
    let command := (commandTryFrom (frame.getD 1 0)).getD .NONE
    let payloadSize := u16FromLeBytes (frame.getD 2 0) (frame.getD 3 0)
    if frameSize < 4 + payloadSize then .panicked
    else
      let payloadBytes := (frame.drop 4).take payloadSize
      match cborFromSliceStringMap payloadBytes with
      | none => .fail .cborError
      | some payload =>
        let crcBytes := frame.drop (frameSize - 2)
        let crc := u16FromLeBytes (crcBytes.getD 0 0) (crcBytes.getD 1 0)
        let calcCrc := crc16Usb ((frame.drop 2).take (frameSize - 4))
        if crc ≠ calcCrc then .fail .crcMismatch
        else .ok {
          action := action
          command := command
          payloadSizeBytes := [frame.getD 2 0, frame.getD 3 0]
          payloadSize := payloadSize
          payloadBytes := payloadBytes
          payload := payload
          crcBytes := crcBytes
          crc := crc }

/-- build_frame from src/src/arduino.rs lines 480-496 (form A): START,
action, command, little-endian length, payload, then the CRC computed
over frame[3..] (length and payload only) appended little-endian. -/
def buildFrame (action : Action) (command : Command) (payload : List Nat) :
    List Nat × Nat :=
  let frame := START_BYTE ++ [action.toByte, command.toByte]
    ++ u16ToLeBytes (payload.length % 65536) ++ payload
  let crc := crc16Usb (frame.drop 3)
  (frame ++ u16ToLeBytes crc, crc)

/-- build_cobs_frame from src/src/arduino.rs lines 498-524: inner frame
action, command, little-endian length, payload, CRC over frame[2..]
(length and payload only); the inner frame is COBS encoded into a buffer
of inner length plus one. cobs::encode panics when the destination is too
small, modelled by returning none; on success the Rust vec of inner
length plus one is returned, its unwritten suffix still zero. -/
def buildCobsFrame (action : Action) (command : Command) (payload : List Nat) :
    Option (List Nat × Nat × Nat) :=
  let frame := [action.toByte, command.toByte]
    ++ u16ToLeBytes (payload.length % 65536) ++ payload
  let crc := crc16Usb (frame.drop 2)
  let frame2 := frame ++ u16ToLeBytes crc
  let encoded := cobsEncode frame2
  if encoded.length ≤ frame2.length + 1 then
    some (encoded ++ List.replicate (frame2.length + 1 - encoded.length) 0,
      encoded.length, crc)
  else none

/-- HashMap get on the decoded payload map (the decoder already gives
unique keys, so the first match is the binding). -/
def hashMapGet (m : List (String × CborValue)) (k : String) : Option CborValue :=
  (m.find? (fun p => p.1 = k)).map (fun p => p.2)

/-- BTreeMap get with a Value::Text key on a nested CBOR map value
(src/src/arduino.rs lines 294-298). -/
def cborMapGetText : List (CborValue × CborValue) → String → Option CborValue
  | [], _ => none
  | (k, v) :: rest, s =>
    match k with
    | .text t => if t = s then some v else cborMapGetText rest s
    | _ => cborMapGetText rest s

/-- The for loop over payload entries in the sensor branch
(src/src/arduino.rs lines 288-311): a map value whose "triggered" entry
is a boolean records it and continues, a map value without one breaks the
loop, a non-map value is skipped. Returns the is_triggered value and the
is_motor_triggered_state flag. -/
def sensorLoop (trig flag : Bool) : List (String × CborValue) → Bool × Bool
  | [] => (trig, flag)
  | (_, v) :: rest =>
    match v with
    | .map es =>
      match (cborMapGetText es "triggered").getD .null with
      | .bool b => sensorLoop b true rest
      | _ => (trig, flag)
    | _ => sensorLoop trig flag rest

/-- The sensor-trigger update of is_triggered for a decoded record
(src/src/arduino.rs lines 275-325): for SENSOR and SENSOR_LOW commands, a
top-level boolean "triggered" wins; otherwise the loop over nested map
values runs and, if it never found a boolean, is_triggered defaults to
false for SENSOR and true for SENSOR_LOW. All other commands leave the
flag alone. -/
def processSensor (command : Command) (payload : List (String × CborValue))
    (isTriggered : Bool) : Bool :=
  if command = .Sensor ∨ command = .SensorLOW then
    match (hashMapGet payload "triggered").getD .null with
    | .bool b => b
    | _ =>
      let r := sensorLoop isTriggered false payload
      if r.2 then r.1
      else if command = .Sensor then false else true
  else isTriggered

/-- The session state the receive path mutates: the reassembly buffer
holds the bytes accumulated since the last reset (buffer[0..idx] in the
Rust array), and is_triggered is the sensor flag. Timing fields, message
buffers and the port handle are not observable by any claim and are not
modelled. -/
structure GigaState where
  buffer : List Nat
  isTriggered : Bool
deriving DecidableEq, Repr

/-- Errors process_normal_byte propagates with the question-mark
operator: a COBS decode error or a decode_message error. -/
inductive ProcError where
  | cobsDecodeErr
  | messageErr (e : DecodeErr)
deriving DecidableEq, Repr

/-- Outcome of one process_normal_byte call: the updated state, the
updated buffer_started flag and the record decoded at a closing
delimiter, or the propagated error, or a panic from decode_message. -/
inductive ProcResult where
  | ok (st : GigaState) (started : Bool) (emitted : Option Message)
  | fail (e : ProcError)
  | panicked

/-- process_normal_byte from src/src/arduino.rs lines 177-348. A zero
byte opens (buffer_started false), closes (buffer_started true and a
non-empty buffer; the bytes go through cobs::decode into a scratch buffer
of one byte less, whose unwritten suffix stays zero, then decode_message
and the sensor update, and buffer_started is cleared), or is ignored; all
three zero paths reset the buffer, and errors return early, leaving the
buffer and flag as they were. A non-zero byte is appended, and the buffer
resets when idx reaches MAX_DATA_LEN. Log output, timing histograms and
the send_cobs_motor port write in the sensor branch (whose payload
serialization always succeeds) have no observable effect here and are not
modelled. -/
def processNormalByte (st : GigaState) (started : Bool) (byte : Nat) : ProcResult :=
  if byte = 0 then
    if !started then .ok { st with buffer := [] } true none
    else if st.buffer.length > 0 then
      match cobsDecode st.buffer with
      | none => .fail .cobsDecodeErr
      | some decoded =>
        let decodedFrame :=
          decoded ++ List.replicate (st.buffer.length - 1 - decoded.length) 0
        match decodeMessage decodedFrame with
        | .panicked => .panicked
        | .fail e => .fail (.messageErr e)
        | .ok m =>
          .ok { buffer := [],
                isTriggered := processSensor m.command m.payload st.isTriggered }
            false (some m)
    else .ok { st with buffer := [] } started none
  else
    let buf := st.buffer ++ [byte]
    if MAX_DATA_LEN ≤ buf.length then .ok { st with buffer := [] } started none
    else .ok { st with buffer := buf } started none

/-- Whether a process_normal_byte call whose closing delimiter emitted
this record performed the fallible SEND/MOTOR port write of the sensor
branch (src/src/arduino.rs line 324): exactly when the decoded command is
Sensor or SensorLOW. -/
def emitsSensorWrite : Option Message → Bool
  | some m => if m.command = .Sensor ∨ m.command = .SensorLOW then true else false
  | none => false

/-- Run process_normal_byte over a byte list as the CheckingDebug replay
loop does, short-circuiting on a propagated error and, with none, on a
failed sensor-branch port write. The replayed marker bytes are non-zero,
so at most one closing delimiter (the current byte) occurs per replay and
the event's single write outcome covers every write of the replay. -/
def processMany (writeOk : Bool) (st : GigaState) (started : Bool) :
    List Nat → Option ProcResult
  | [] => some (.ok st started none)
  | b :: rest =>
    match processNormalByte st started b with
    | .ok st2 s2 em =>
      if emitsSensorWrite em && !writeOk then none
      else processMany writeOk st2 s2 rest
    | .fail e => some (.fail e)
    | .panicked => some .panicked

/-- ReceiveState from src/src/model.rs via the listen loop. -/
inductive RxState where
  | normal
  | checkingDebug (matchCount : Nat)
  | debugMode
deriving DecidableEq, Repr

/-- One read from the port as the listen loop sees it, together with the
outcome of the port write handling it may perform: a byte (whose closing
of a Sensor or SensorLOW record triggers the fallible SEND/MOTOR write of
src/src/arduino.rs line 324), a timeout (which in non-monitor mode
triggers the fallible READ/MOTOR heartbeat write of line 441), or an I/O
error whose subsequent reopen attempt succeeds or fails. -/
inductive ReadEvent where
  | byte (b : Nat) (writeOk : Bool)
  | timeout (writeOk : Bool)
  | ioErr (reopenOk : Bool)
deriving DecidableEq, Repr

/-- How a run of the listen loop over a finite event list ends. -/
inductive ListenResult where
  | ranOut (st : GigaState) (started : Bool) (rs : RxState)
  | failed (e : ProcError)
  | panicked
  | writeFailed
  | reopenFailed
deriving DecidableEq, Repr

/-- The 7-byte ASCII marker the listen loop watches for. -/
def debugSeq : List Nat := [0x5b, 0x44, 0x45, 0x42, 0x55, 0x47, 0x5d]

/-- listen from src/src/arduino.rs lines 350-478 over a finite list of
read results. In NORMAL a byte matching the marker head enters
CheckingDebug, anything else goes to process_normal_byte whose error or
panic ends the loop (the question-mark operator at line 380); when the
byte closed a Sensor or SensorLOW record, the sensor branch has written a
SEND/MOTOR frame to the port (line 324) and a failed write ends the loop
through the same question mark. In CheckingDebug a mismatch replays the
matched marker bytes and the current byte through process_normal_byte the
same way. DEBUG accumulates printable bytes until CR, LF or ESC. A
timeout in non-monitor mode writes the READ/MOTOR heartbeat (line 441)
and continues only when that write succeeds; in monitor mode it just
continues. A read error reopens the port and continues, and ends the
loop when the reopen fails. -/
def listenRun (sensorMonitor : Bool) (st : GigaState) (started : Bool)
    (rs : RxState) (dbgOut : String) : List ReadEvent → ListenResult
  | [] => .ranOut st started rs
  | ev :: rest =>
    match ev with
    | .timeout writeOk =>
      if sensorMonitor then listenRun sensorMonitor st started rs dbgOut rest
      else if writeOk then listenRun sensorMonitor st started rs dbgOut rest
      else .writeFailed
    | .ioErr reopenOk =>
      if reopenOk then listenRun sensorMonitor st started rs dbgOut rest
      else .reopenFailed
    | .byte b writeOk =>
      match rs with
      | .normal =>
        if b = debugSeq.getD 0 0 then
          listenRun sensorMonitor st started (.checkingDebug 1) dbgOut rest
        else
          match processNormalByte st started b with
          | .ok st2 s2 em =>
            if emitsSensorWrite em && !writeOk then .writeFailed
            else listenRun sensorMonitor st2 s2 .normal dbgOut rest
          | .fail e => .failed e
          | .panicked => .panicked
      | .checkingDebug mc =>
        if mc < debugSeq.length ∧ b = debugSeq.getD mc 0 then
          if mc + 1 = debugSeq.length then
            listenRun sensorMonitor st started .debugMode dbgOut rest
          else
            listenRun sensorMonitor st started (.checkingDebug (mc + 1)) dbgOut rest
        else
          match processMany writeOk st started (debugSeq.take mc ++ [b]) with
          | none => .writeFailed
          | some (.ok st2 s2 _) => listenRun sensorMonitor st2 s2 .normal dbgOut rest
          | some (.fail e) => .failed e
          | some .panicked => .panicked
      | .debugMode =>
        if b = 0x0a ∨ b = 0x0d then
          listenRun sensorMonitor st started .normal "" rest
        else if b = 0x1b then
          listenRun sensorMonitor st started .normal "" rest
        else if 0x20 ≤ b ∧ b ≤ 0x7e then
          listenRun sensorMonitor st started .debugMode
            (dbgOut.push (Char.ofNat b)) rest
        else
          listenRun sensorMonitor st started .debugMode dbgOut rest

/-- Whether a decode result is Ok. -/
def isOkResult : DecodeResult → Bool
  | .ok _ => true
  | _ => false

/-- Whether a decode result is the CRC-mismatch error. -/
def isCrcMismatch : DecodeResult → Bool
  | .fail .crcMismatch => true
  | _ => false

/-- Flip bit k of the byte at index i (out-of-range indices leave the
list unchanged, matching List.set). -/
def flipBitAt (l : List Nat) (i k : Nat) : List Nat :=
  l.set i ((l.getD i 0) ^^^ 2 ^ k)

/-- The receive pipeline of the round-trip property: COBS decode the
inner bytes, then decode_message, keeping only an Ok record. -/
def roundtripDecode (enc : List Nat) : Option Message :=
  (cobsDecode enc).bind fun f =>
    match decodeMessage f with
    | .ok m => some m
    | _ => none

/-- The round-trip property of the spec for one input triple: whatever
inner frame build_cobs_frame produces, COBS decoding its encoded_size
bytes and running decode_message yields a record carrying the same
action, command and byte-identical payload bytes. -/
def roundtripReproduces (a : Action) (c : Command) (payload : List Nat) : Prop :=
  ∀ enc sz crc, buildCobsFrame a c payload = some (enc, sz, crc) →
    ∃ m, roundtripDecode (enc.take sz) = some m ∧
      m.action = a ∧ m.command = c ∧ m.payloadBytes = payload

/-- True when the COBS encoder never hits a full 254-byte group on this
input, starting with cur bytes already pending: exactly the condition for
the encoded output to be one byte longer than the input. -/
def runsOkB (cur : Nat) : List Nat → Bool
  | [] => true
  | x :: rest =>
    if x = 0 then runsOkB 0 rest
    else if cur = 253 then false
    else runsOkB (cur + 1) rest

/-- A 65538-byte CBOR test vector: the map pairing the key "a" with a
byte string of 65530 zero bytes. Its length exceeds what the u16 length
field of the frame format can express. -/
def bigPayload : List Nat :=
  0xA1 :: 0x61 :: 0x61 :: 0x5A :: 0x00 :: 0x00 :: 0xFF :: 0xFA ::
    List.replicate 65530 0

/-! Helper lemmas about the COBS codec. -/

/-- The COBS encoder output is always at least one byte longer than the
pending block plus the remaining input. -/
theorem cobsEncGo_length_ge (l : List Nat) : ∀ block : List Nat,
    block.length + l.length + 1 ≤ (cobsEncGo block l).length := by
  induction l with
  | nil => intro block; simp [cobsEncGo]
  | cons x rest ih =>
    intro block
    simp only [cobsEncGo]
    split_ifs with h1 h2
    · have h := ih []
      simp only [List.length_cons, List.length_append, List.length_nil] at *
      omega
    · have h := ih []
      simp only [List.length_cons, List.length_append, List.length_nil] at *
      omega
    · have h := ih (block ++ [x])
      simp only [List.length_cons, List.length_append,
        List.length_singleton, List.length_nil] at *
      omega

/-- When no full 254-byte group occurs, the COBS output is exactly one
byte longer than the input plus the pending block. -/
theorem cobsEncGo_length_eq (l : List Nat) : ∀ block : List Nat,
    runsOkB block.length l = true →
    (cobsEncGo block l).length = block.length + l.length + 1 := by
  induction l with
  | nil => intro block _; simp [cobsEncGo]
  | cons x rest ih =>
    intro block hok
    simp only [cobsEncGo]
    simp only [runsOkB] at hok
    split_ifs with h1 h2
    · simp only [h1, if_pos rfl] at hok
      have h := ih [] hok
      simp only [List.length_cons, List.length_append, List.length_nil] at *
      omega
    · simp only [if_neg h1, if_pos h2] at hok
      exact absurd hok (by simp)
    · simp only [if_neg h1, if_neg h2] at hok
      have h := ih (block ++ [x]) (by simpa using hok)
      simp only [List.length_cons, List.length_append,
        List.length_singleton, List.length_nil] at *
      omega

/-- Short inputs never produce a full group. -/
theorem runsOkB_of_le (l : List Nat) : ∀ cur : Nat,
    cur + l.length ≤ 253 → runsOkB cur l = true := by
  induction l with
  | nil => intro cur _; rfl
  | cons x rest ih =>
    intro cur h
    simp only [List.length_cons] at h
    simp only [runsOkB]
    split_ifs with h1 h2
    · exact ih 0 (by omega)
    · omega
    · exact ih (cur + 1) (by omega)

/-- When a full 254-byte group does occur, the COBS output is at least
two bytes longer than the input plus the pending block. -/
theorem cobsEncGo_length_ge_two (l : List Nat) : ∀ block : List Nat,
    runsOkB block.length l = false →
    block.length + l.length + 2 ≤ (cobsEncGo block l).length := by
  induction l with
  | nil => intro block h; exact absurd h (by simp [runsOkB])
  | cons x rest ih =>
    intro block hbad
    simp only [cobsEncGo]
    simp only [runsOkB] at hbad
    split_ifs with h1 h2
    · simp only [h1, if_pos rfl] at hbad
      have h := ih [] hbad
      simp only [List.length_cons, List.length_append, List.length_nil] at *
      omega
    · have h := cobsEncGo_length_ge rest []
      simp only [List.length_cons, List.length_append, List.length_nil,
        List.length_singleton] at *
      omega
    · simp only [if_neg h1, if_neg h2] at hbad
      have h := ih (block ++ [x]) (by simpa using hbad)
      simp only [List.length_cons, List.length_append,
        List.length_singleton, List.length_nil] at *
      omega

/-- A run of at least 254 pending-plus-ones forces a full group. -/
theorem runsOkB_replicate_one (n : Nat) : ∀ cur rest, cur ≤ 253 →
    254 ≤ cur + n → runsOkB cur (List.replicate n 1 ++ rest) = false := by
  induction n with
  | zero => intro cur rest h1 h2; omega
  | succ n ih =>
    intro cur rest h1 h2
    simp only [List.replicate_succ, List.cons_append, runsOkB]
    rw [if_neg (by omega : ¬(1 : Nat) = 0)]
    by_cases hc : cur = 253
    · rw [if_pos hc]
    · rw [if_neg hc]
      exact ih (cur + 1) rest (by omega) (by omega)

/-- Zero bytes reset the pending group counter. -/
theorem runsOkB_replicate_zero (n : Nat) : ∀ cur rest, 1 ≤ n →
    runsOkB cur (List.replicate n 0 ++ rest) = runsOkB 0 rest := by
  induction n with
  | zero => intro cur rest h; omega
  | succ n ih =>
    intro cur rest _
    simp only [List.replicate_succ, List.cons_append, runsOkB, if_pos rfl]
    cases n with
    | zero => simp
    | succ m => exact ih 0 rest (by omega)

/-- One non-zero, non-overflowing step of the run tracker. -/
theorem runsOkB_cons_ne {x cur : Nat} {rest : List Nat} (hx : ¬x = 0)
    (hc : ¬cur = 253) : runsOkB cur (x :: rest) = runsOkB (cur + 1) rest := by
  simp only [runsOkB, if_neg hx, if_neg hc]

/-- A zero byte resets the run tracker. -/
theorem runsOkB_cons_zero {cur : Nat} {rest : List Nat} :
    runsOkB cur (0 :: rest) = runsOkB 0 rest := by
  simp only [runsOkB, if_pos rfl, if_true]

/-- Reading the data bytes of a group prepends them to whatever the
decoder makes of the rest. -/
theorem cobsDecGo_data (block : List Nat) : ∀ (T : List Nat) (full : Bool),
    (∀ b ∈ block, b ≠ 0) →
    cobsDecGo (block ++ T) full block.length =
      (cobsDecGo T full 0).map (fun d => block ++ d) := by
  induction block with
  | nil =>
    intro T full _
    cases h : cobsDecGo T full 0 <;> simp [h]
  | cons b bs ih =>
    intro T full hnz
    have hb : b ≠ 0 := hnz b (by simp)
    have key := ih T full (fun x hx => hnz x (by simp [hx]))
    simp only [List.cons_append, List.length_cons, cobsDecGo, if_neg hb,
      List.append_eq] at key ⊢
    rw [key]
    cases h : cobsDecGo T full 0 <;> simp [h]

/-- Decoding the encoder output recovers the pending block followed by
the remaining input, with a zero reinserted unless the previous group was
full. -/
theorem cobsDecGo_encGo (l : List Nat) : ∀ (block : List Nat) (full : Bool),
    (∀ b ∈ block, b ≠ 0) → block.length ≤ 253 →
    cobsDecGo (cobsEncGo block l) full 0 =
      some (if full then block ++ l else 0 :: (block ++ l)) := by
  induction l with
  | nil =>
    intro block full hnz hlen
    have hne : ¬block.length + 1 = 0 := by omega
    have hstep : cobsDecGo ((block.length + 1) :: block) full 0 =
        (cobsDecGo block (decide (block.length + 1 = 255))
          (block.length + 1 - 1)).map (fun d => if full then d else 0 :: d) := by
      simp only [cobsDecGo, if_neg hne]
    have hdata := cobsDecGo_data block [] (decide (block.length + 1 = 255)) hnz
    simp only [List.append_nil] at hdata
    have hrw : block.length + 1 - 1 = block.length := by omega
    rw [show cobsEncGo block [] = (block.length + 1) :: block from rfl,
      hstep, hrw, hdata]
    cases full <;> simp [cobsDecGo]
  | cons x rest ih =>
    intro block full hnz hlen
    by_cases h1 : x = 0
    · -- zero byte: finish the group, code is block.length + 1
      have henc : cobsEncGo block (x :: rest) =
          (block.length + 1) :: (block ++ cobsEncGo [] rest) := by
        simp [cobsEncGo, h1]
      have hne : ¬block.length + 1 = 0 := by omega
      have hstep : cobsDecGo ((block.length + 1) :: (block ++ cobsEncGo [] rest)) full 0 =
          (cobsDecGo (block ++ cobsEncGo [] rest) (decide (block.length + 1 = 255))
            (block.length + 1 - 1)).map (fun d => if full then d else 0 :: d) := by
        simp only [cobsDecGo, if_neg hne]
      have hrw : block.length + 1 - 1 = block.length := by omega
      have hdata := cobsDecGo_data block (cobsEncGo [] rest)
        (decide (block.length + 1 = 255)) hnz
      have hfull : (decide (block.length + 1 = 255)) = false := by
        have hne2 : ¬block.length + 1 = 255 := by omega
        simp [hne2]
      rw [henc, hstep, hrw, hdata, hfull, ih [] false (by simp) (by simp)]
      subst h1
      cases full <;> simp
    · by_cases h2 : block.length = 253
      · -- full group of 254: code byte 255, no zero reinserted after it
        have henc : cobsEncGo block (x :: rest) =
            255 :: ((block ++ [x]) ++ cobsEncGo [] rest) := by
          simp [cobsEncGo, h1, h2]
        have h255 : ¬(255 : Nat) = 0 := by omega
        have hstep : cobsDecGo (255 :: ((block ++ [x]) ++ cobsEncGo [] rest)) full 0 =
            (cobsDecGo ((block ++ [x]) ++ cobsEncGo [] rest)
              (decide ((255 : Nat) = 255)) (255 - 1)).map
              (fun d => if full then d else 0 :: d) := by
          simp only [cobsDecGo, if_neg h255]
        have hnz2 : ∀ b ∈ block ++ [x], b ≠ 0 := by
          intro b hb
          rcases List.mem_append.mp hb with h | h
          · exact hnz b h
          · simp only [List.mem_singleton] at h; omega
        have hdata := cobsDecGo_data (block ++ [x]) (cobsEncGo [] rest)
          (decide ((255 : Nat) = 255)) hnz2
        have hlen2 : (block ++ [x]).length = 255 - 1 := by
          simp [h2]
        rw [henc, hstep, ← hlen2, hdata,
          show (decide ((255 : Nat) = 255)) = true from by simp,
          ih [] true (by simp) (by simp)]
        cases full <;> simp
      · -- ordinary data byte: it joins the pending group
        have henc : cobsEncGo block (x :: rest) = cobsEncGo (block ++ [x]) rest := by
          simp [cobsEncGo, h1, h2]
        have hnz2 : ∀ b ∈ block ++ [x], b ≠ 0 := by
          intro b hb
          rcases List.mem_append.mp hb with h | h
          · exact hnz b h
          · simp only [List.mem_singleton] at h; omega
        have hlen2 : (block ++ [x]).length ≤ 253 := by
          simp only [List.length_append, List.length_singleton]
          omega
        rw [henc, ih (block ++ [x]) full hnz2 hlen2]
        cases full <;> simp

/-- COBS round trip for the crate pair used by the repository. -/
theorem cobsDecode_cobsEncode (l : List Nat) : cobsDecode (cobsEncode l) = some l := by
  have h := cobsDecGo_encGo l [] true (by simp) (by simp)
  simpa [cobsDecode, cobsEncode] using h

/-! Helper lemmas about the CRC register. -/

/-- The CRC register stays a 16-bit value across one shift. -/
theorem crc16Shift_lt {x : Nat} (h : x < 65536) : crc16Shift x < 65536 := by
  unfold crc16Shift
  have h216 : (2 : Nat) ^ 16 = 65536 := by norm_num
  have hs : x >>> 1 < 65536 := by
    rw [Nat.shiftRight_eq_div_pow]
    omega
  split_ifs
  · have hx : x >>> 1 < 2 ^ 16 := by omega
    have hy : (0xA001 : Nat) < 2 ^ 16 := by norm_num
    have := Nat.xor_lt_two_pow hx hy
    omega
  · exact hs

/-- The CRC register stays a 16-bit value across one byte. -/
theorem crc16UsbStep_lt {crc b : Nat} (h1 : crc < 65536) (h2 : b < 65536) :
    crc16UsbStep crc b < 65536 := by
  unfold crc16UsbStep
  have h216 : (2 : Nat) ^ 16 = 65536 := by norm_num
  have h0 : crc ^^^ b < 65536 := by
    have hx : crc < 2 ^ 16 := by omega
    have hy : b < 2 ^ 16 := by omega
    have := Nat.xor_lt_two_pow hx hy
    omega
  exact crc16Shift_lt (crc16Shift_lt (crc16Shift_lt (crc16Shift_lt
    (crc16Shift_lt (crc16Shift_lt (crc16Shift_lt (crc16Shift_lt h0)))))))

/-- The CRC of a list of 16-bit values is a 16-bit value. -/
theorem crc16Usb_lt {l : List Nat} (h : ∀ b ∈ l, b < 65536) :
    crc16Usb l < 65536 := by
  unfold crc16Usb
  have hfold : ∀ (l2 : List Nat) (acc : Nat), acc < 65536 →
      (∀ b ∈ l2, b < 65536) → l2.foldl crc16UsbStep acc < 65536 := by
    intro l2
    induction l2 with
    | nil => intro acc ha _; simpa using ha
    | cons x rest ih =>
      intro acc ha hmem
      simp only [List.foldl_cons]
      exact ih (crc16UsbStep acc x)
        (crc16UsbStep_lt ha (hmem x (by simp)))
        (fun b hb => hmem b (by simp [hb]))
  have h216 : (2 : Nat) ^ 16 = 65536 := by norm_num
  have hlt := hfold l 0xFFFF (by norm_num) h
  have hx : l.foldl crc16UsbStep 0xFFFF < 2 ^ 16 := by omega
  have hy : (0xFFFF : Nat) < 2 ^ 16 := by norm_num
  have := Nat.xor_lt_two_pow hx hy
  omega

/-! Helper lemmas about list indexing under a single-byte update. -/

/-- getD with the default used by the codec is unchanged off the updated
index. -/
theorem getD_set_ne {l : List Nat} {i j a : Nat} (h : i ≠ j) :
    (l.set i a).getD j 0 = l.getD j 0 := by
  simp [List.getD_eq_getElem?_getD, List.getElem?_set_ne h]

/-- A window that ends before the updated index is unchanged. -/
theorem drop_take_set_eq {l : List Nat} {i d t a : Nat} (h : d + t ≤ i) :
    ((l.set i a).drop d).take t = (l.drop d).take t := by
  apply List.ext_getElem?
  intro n
  simp only [List.getElem?_take, List.getElem?_drop]
  split_ifs with hn
  · exact List.getElem?_set_ne (by omega)
  · rfl

/-! Congruence lemmas for decode_message: the result only looks at the
frame through its length, the five byte windows, and the two head
bytes. -/

/-- decode_message gives equal results on frames of equal length that
agree on everything it reads: the resolved action and command, the two
length bytes, and the suffix from index 2 on. -/
theorem decodeMessage_congr {f g : List Nat}
    (hlen : f.length = g.length)
    (ha : (actionTryFrom (f.getD 0 0)).getD .NONE =
      (actionTryFrom (g.getD 0 0)).getD .NONE)
    (hc : (commandTryFrom (f.getD 1 0)).getD .NONE =
      (commandTryFrom (g.getD 1 0)).getD .NONE)
    (h2 : f.getD 2 0 = g.getD 2 0) (h3 : f.getD 3 0 = g.getD 3 0)
    (hd2 : f.drop 2 = g.drop 2) :
    decodeMessage f = decodeMessage g := by
  have hd4 : f.drop 4 = g.drop 4 := by
    have e1 : f.drop 4 = (f.drop 2).drop 2 := by rw [List.drop_drop]
    have e2 : g.drop 4 = (g.drop 2).drop 2 := by rw [List.drop_drop]
    rw [e1, e2, hd2]
  simp only [decodeMessage]
  rw [hlen, ha, hc, h2, h3, hd4, hd2]
  by_cases h6 : g.length < 6
  · simp [h6]
  · have hdc : f.drop (g.length - 2) = g.drop (g.length - 2) := by
      have e1 : f.drop (g.length - 2) = (f.drop 2).drop (g.length - 4) := by
        rw [List.drop_drop]
        congr 1
        omega
      have e2 : g.drop (g.length - 2) = (g.drop 2).drop (g.length - 4) := by
        rw [List.drop_drop]
        congr 1
        omega
      rw [e1, e2, hd2]
    rw [hdc]

/-- When decode_message accepts a frame, it accepts any frame of the same
length agreeing with it from index 2 on, and the only fields that can
change are the resolved action and command: the CRC never covers the
first two bytes. -/
theorem decodeMessage_ok_congr_head {f g : List Nat} {m : Message}
    (hlen : f.length = g.length)
    (h2 : f.getD 2 0 = g.getD 2 0) (h3 : f.getD 3 0 = g.getD 3 0)
    (hd2 : f.drop 2 = g.drop 2)
    (hok : decodeMessage g = .ok m) :
    decodeMessage f = .ok { m with
      action := (actionTryFrom (f.getD 0 0)).getD .NONE
      command := (commandTryFrom (f.getD 1 0)).getD .NONE } := by
  have hd4 : f.drop 4 = g.drop 4 := by
    have e1 : f.drop 4 = (f.drop 2).drop 2 := by rw [List.drop_drop]
    have e2 : g.drop 4 = (g.drop 2).drop 2 := by rw [List.drop_drop]
    rw [e1, e2, hd2]
  by_cases h6 : g.length < 6
  · simp only [decodeMessage, if_pos h6] at hok
    exact absurd hok (by simp)
  · have hdc : f.drop (g.length - 2) = g.drop (g.length - 2) := by
      have e1 : f.drop (g.length - 2) = (f.drop 2).drop (g.length - 4) := by
        rw [List.drop_drop]
        congr 1
        omega
      have e2 : g.drop (g.length - 2) = (g.drop 2).drop (g.length - 4) := by
        rw [List.drop_drop]
        congr 1
        omega
      rw [e1, e2, hd2]
    simp only [decodeMessage] at hok ⊢
    rw [hlen, h2, h3, hd4, hd2, hdc]
    rw [if_neg h6] at hok ⊢
    by_cases hsz : g.length < 4 + u16FromLeBytes (g.getD 2 0) (g.getD 3 0)
    · rw [if_pos hsz] at hok
      exact absurd hok (by simp)
    · rw [if_neg hsz] at hok ⊢
      split at hok
      · exact absurd hok (by simp)
      · rename_i p hcb
        split at hok
        · exact absurd hok (by simp)
        · rename_i hcrc
          rw [if_neg hcrc]
          have hm := DecodeResult.ok.inj hok
          subst hm
          rfl

/-! Claim theorems. -/

/-- C1 (amended): the CRC-16/USB checksum of both frame builders is
computed over the two fields little-endian length and payload only,
exclusive of the START byte, of the action and command bytes, and of the
CRC field itself; a record decoded by decode_message satisfies
CRC16/USB over frame bytes 2 through length minus 3 (the length field
and everything up to the CRC) equal to crc. -/
theorem crc_scope_characterization :
    (∀ (a : Action) (c : Command) (payload : List Nat),
      (buildFrame a c payload).2 =
        crc16Usb (u16ToLeBytes (payload.length % 65536) ++ payload)) ∧
    (∀ (a : Action) (c : Command) (payload enc : List Nat) (sz crc : Nat),
      buildCobsFrame a c payload = some (enc, sz, crc) →
      crc = crc16Usb (u16ToLeBytes (payload.length % 65536) ++ payload)) ∧
    (∀ (frame : List Nat) (m : Message), decodeMessage frame = .ok m →
      m.crc = crc16Usb ((frame.drop 2).take (frame.length - 4))) := by
  refine ⟨fun a c p => rfl, ?_, ?_⟩
  · intro a c p enc sz crc h
    simp only [buildCobsFrame] at h
    split at h
    · have hp := Option.some.inj h
      have hcrc := congrArg (fun t : List Nat × Nat × Nat => t.2.2) hp
      exact hcrc.symm
    · exact Option.noConfusion h
  · intro frame m hok
    simp only [decodeMessage] at hok
    split at hok
    · exact absurd hok (by simp)
    · split at hok
      · exact absurd hok (by simp)
      · split at hok
        · exact absurd hok (by simp)
        · split at hok
          · exact absurd hok (by simp)
          · rename_i hcrc
            have hm := DecodeResult.ok.inj hok
            rw [← hm]
            exact not_ne_iff.mp hcrc

/-- C1 counterexample: a frame built by the repository and accepted by
decode_message whose CRC does not equal CRC16/USB over
action, command, length and payload: the code skips the first two bytes,
so the four-field checksum of the claim disagrees with the stored CRC. -/
theorem crc_four_fields_counterexample :
    decodeMessage [0xAA, 0x03, 0x01, 0x00, 0xA0, 0xDF, 0x87] = .ok {
      action := .SEND
      command := .MOTOR
      payloadSizeBytes := [0x01, 0x00]
      payloadSize := 1
      payloadBytes := [0xA0]
      payload := []
      crcBytes := [0xDF, 0x87]
      crc := 0x87DF } ∧
    (buildCobsFrame .SEND .MOTOR [0xA0]).map (fun t => t.2.2) = some 0x87DF ∧
    crc16Usb ([0xAA] ++ [0x03] ++ [0x01, 0x00] ++ [0xA0]) ≠ 0x87DF :=
  ⟨rfl, rfl, by decide⟩

/-- C1 witness: the characterization applied to a concrete accepted
frame and a concrete built frame. -/
theorem crc_scope_witness :
    (buildFrame .READ .Sensor [0xA0]).2 =
      crc16Usb (u16ToLeBytes (([0xA0] : List Nat).length % 65536) ++ [0xA0]) ∧
    decodeMessage [0xAA, 0x03, 0x01, 0x00, 0xA0, 0xDF, 0x87] = .ok {
      action := .SEND
      command := .MOTOR
      payloadSizeBytes := [0x01, 0x00]
      payloadSize := 1
      payloadBytes := [0xA0]
      payload := []
      crcBytes := [0xDF, 0x87]
      crc := 0x87DF } ∧
    ({ action := .SEND, command := .MOTOR, payloadSizeBytes := [0x01, 0x00],
       payloadSize := 1, payloadBytes := [0xA0], payload := [],
       crcBytes := [0xDF, 0x87], crc := 0x87DF } : Message).crc =
      crc16Usb (([0xAA, 0x03, 0x01, 0x00, 0xA0, 0xDF, 0x87].drop 2).take
        ([0xAA, 0x03, 0x01, 0x00, 0xA0, 0xDF, 0x87].length - 4)) :=
  ⟨crc_scope_characterization.1 .READ .Sensor [0xA0], rfl,
    crc_scope_characterization.2.2 [0xAA, 0x03, 0x01, 0x00, 0xA0, 0xDF, 0x87] _ rfl⟩

/-- C4: decode_message does not bounds-check the declared payload length:
on the 6-byte input with declared length 0xFFFF the Rust slice
frame[4..4+65535] is out of range and the function panics instead of
returning an error value. -/
theorem decode_length_unchecked_panic :
    decodeMessage [0x00, 0x00, 0xFF, 0xFF, 0x00, 0x00] = .panicked := rfl

/-- C7 (amended): decode_message rejects every input shorter than 6
bytes with the short-frame error; a declared zero-length payload passes
the length check but the CBOR decode of the empty payload then fails
unconditionally (and before the CRC is even examined), so no zero-payload
frame is ever accepted. -/
theorem short_and_zero_length_frames :
    (∀ frame : List Nat, frame.length < 6 →
      decodeMessage frame = .fail .shortFrame) ∧
    (∀ frame : List Nat, 6 ≤ frame.length →
      frame.getD 2 0 = 0 → frame.getD 3 0 = 0 →
      decodeMessage frame = .fail .cborError) := by
  constructor
  · intro frame h
    simp [decodeMessage, h]
  · intro frame h6 h2 h3
    have hn : ¬frame.length < 6 := by omega
    simp only [decodeMessage, if_neg hn, h2, h3]
    have hz : u16FromLeBytes 0 0 = 0 := rfl
    rw [hz]
    rw [if_neg (by omega : ¬frame.length < 4 + 0)]
    rfl

/-- C7 counterexample: a 6-byte frame with declared length zero and a
correct CRC over its length field is rejected with the CBOR decode
error, refuting that a zero-length payload is accepted. -/
theorem zero_length_accepted_counterexample :
    decodeMessage [0xAA, 0x03, 0x00, 0x00, 0xFE, 0x4F] = .fail .cborError ∧
    u16FromLeBytes 0xFE 0x4F = crc16Usb [0x00, 0x00] :=
  ⟨rfl, by decide⟩

/-- C7 witness: both halves at concrete inputs. -/
theorem short_and_zero_length_frames_witness :
    decodeMessage [1, 2, 3] = .fail .shortFrame ∧
    decodeMessage [0xAA, 0x03, 0x00, 0x00, 0x01, 0x02] = .fail .cborError :=
  ⟨short_and_zero_length_frames.1 [1, 2, 3] (by decide),
    short_and_zero_length_frames.2 [0xAA, 0x03, 0x00, 0x00, 0x01, 0x02]
      (by decide) rfl rfl⟩

/-- C8: an action byte outside the closed set and a command byte outside
the closed set are mapped to the NONE enum values rather than erroring:
decoding such a frame gives exactly the result of decoding the frame with
both head bytes zeroed (the CRC never covers them), and when decoding
succeeds the record carries NONE and NONE. -/
theorem lenient_enum_mapping :
    ∀ (b0 b1 : Nat) (rest : List Nat),
      actionTryFrom b0 = none → commandTryFrom b1 = none →
      decodeMessage (b0 :: b1 :: rest) = decodeMessage (0x00 :: 0x00 :: rest) ∧
      ∀ m, decodeMessage (b0 :: b1 :: rest) = .ok m →
        m.action = .NONE ∧ m.command = .NONE := by
  intro b0 b1 rest h0 h1
  have heq : decodeMessage (b0 :: b1 :: rest) = decodeMessage (0x00 :: 0x00 :: rest) := by
    apply decodeMessage_congr
    · simp
    · rw [show (b0 :: b1 :: rest).getD 0 0 = b0 from rfl,
        show ((0x00 : Nat) :: 0x00 :: rest).getD 0 0 = 0x00 from rfl, h0]
      rfl
    · rw [show (b0 :: b1 :: rest).getD 1 0 = b1 from rfl,
        show ((0x00 : Nat) :: 0x00 :: rest).getD 1 0 = 0x00 from rfl, h1]
      rfl
    · rfl
    · rfl
    · rfl
  refine ⟨heq, ?_⟩
  intro m hok
  have h2 := decodeMessage_ok_congr_head (f := b0 :: b1 :: rest)
    (g := b0 :: b1 :: rest) rfl rfl rfl rfl hok
  rw [hok] at h2
  have hm := DecodeResult.ok.inj h2
  constructor
  · have ha := congrArg Message.action hm
    rw [show (b0 :: b1 :: rest).getD 0 0 = b0 from rfl, h0] at ha
    simpa using ha
  · have hc := congrArg Message.command hm
    rw [show (b0 :: b1 :: rest).getD 1 0 = b1 from rfl, h1] at hc
    simpa using hc

/-- C8 witness: a frame with action byte 0x55 and command byte 0x99
decodes to the same record as the zero-headed frame and carries NONE
and NONE. -/
theorem lenient_enum_mapping_witness :
    actionTryFrom 0x55 = none ∧ commandTryFrom 0x99 = none ∧
    decodeMessage (0x55 :: 0x99 :: [0x01, 0x00, 0xA0, 0xDF, 0x87]) =
      decodeMessage (0x00 :: 0x00 :: [0x01, 0x00, 0xA0, 0xDF, 0x87]) ∧
    ∀ m, decodeMessage (0x55 :: 0x99 :: [0x01, 0x00, 0xA0, 0xDF, 0x87]) = .ok m →
      m.action = .NONE ∧ m.command = .NONE :=
  ⟨by decide, by decide,
    (lenient_enum_mapping 0x55 0x99 [0x01, 0x00, 0xA0, 0xDF, 0x87]
      (by decide) (by decide)).1,
    (lenient_enum_mapping 0x55 0x99 [0x01, 0x00, 0xA0, 0xDF, 0x87]
      (by decide) (by decide)).2⟩

/-- An option whose default-null projection is a boolean must be that
boolean. -/
theorem getD_null_eq_bool {o : Option CborValue} {b : Bool}
    (h : o.getD .null = .bool b) : o = some (.bool b) := by
  cases o with
  | none => exact CborValue.noConfusion h
  | some x => rw [Option.getD_some] at h; rw [h]

/-- The sensor loop leaves the trigger flag untouched and never sets the
motor-triggered flag when no nested map value carries a boolean
"triggered" entry. -/
theorem sensorLoop_no_trigger :
    ∀ (pl : List (String × CborValue)) (trig : Bool),
      (∀ k v, (k, v) ∈ pl → ∀ es, v = .map es →
        ∀ b : Bool, cborMapGetText es "triggered" ≠ some (.bool b)) →
      sensorLoop trig false pl = (trig, false) := by
  intro pl
  induction pl with
  | nil => intro trig _; rfl
  | cons kv rest ih =>
    intro trig hn
    obtain ⟨k, v⟩ := kv
    have hrest : ∀ k v, (k, v) ∈ rest → ∀ es, v = .map es →
        ∀ b : Bool, cborMapGetText es "triggered" ≠ some (.bool b) :=
      fun k' v' hm => hn k' v' (List.mem_cons_of_mem _ hm)
    cases v with
    | map es =>
      simp only [sensorLoop]
      split
      · rename_i b heq
        exact absurd (getD_null_eq_bool heq)
          (hn k (.map es) (List.mem_cons_self _ _) es rfl b)
      · rfl
    | null => exact ih trig hrest
    | bool b => exact ih trig hrest
    | integer i => exact ih trig hrest
    | float w bits => exact ih trig hrest
    | bytes bs => exact ih trig hrest
    | text s => exact ih trig hrest
    | array vs => exact ih trig hrest
    | tagged t v => exact ih trig hrest

/-- C9: for a SENSOR or SENSOR_LOW record whose payload has no top-level
boolean "triggered" and no nested map value with a boolean "triggered",
the legacy fallback applies: is_triggered becomes false for SENSOR and
true for SENSOR_LOW, whatever its previous value. -/
theorem sensor_fallback_defaults :
    ∀ (payload : List (String × CborValue)) (old : Bool),
      (∀ b : Bool, hashMapGet payload "triggered" ≠ some (.bool b)) →
      (∀ k v, (k, v) ∈ payload → ∀ es, v = .map es →
        ∀ b : Bool, cborMapGetText es "triggered" ≠ some (.bool b)) →
      processSensor .Sensor payload old = false ∧
      processSensor .SensorLOW payload old = true := by
  intro payload old htop hnested
  have key := sensorLoop_no_trigger payload old hnested
  constructor
  · unfold processSensor
    rw [if_pos (Or.inl rfl :
      Command.Sensor = Command.Sensor ∨ Command.Sensor = Command.SensorLOW)]
    split
    · rename_i b heq
      exact absurd (getD_null_eq_bool heq) (htop b)
    · show (if (sensorLoop old false payload).2 then (sensorLoop old false payload).1
        else if Command.Sensor = Command.Sensor then false else true) = false
      rw [key]
      simp
  · unfold processSensor
    rw [if_pos (Or.inr rfl :
      Command.SensorLOW = Command.Sensor ∨ Command.SensorLOW = Command.SensorLOW)]
    split
    · rename_i b heq
      exact absurd (getD_null_eq_bool heq) (htop b)
    · show (if (sensorLoop old false payload).2 then (sensorLoop old false payload).1
        else if Command.SensorLOW = Command.Sensor then false else true) = true
      rw [key]
      simp

/-- C9 witness: a payload with a name entry and a nested map without a
boolean "triggered" takes the documented defaults. -/
theorem sensor_fallback_defaults_witness :
    processSensor .Sensor
      [("name", .text "t1"), ("M1", .map [(.text "id", .integer 3)])] true = false ∧
    processSensor .SensorLOW
      [("name", .text "t1"), ("M1", .map [(.text "id", .integer 3)])] false = true := by
  have h := sensor_fallback_defaults
    [("name", .text "t1"), ("M1", .map [(.text "id", .integer 3)])] true
    (by
      intro b hb
      rw [show hashMapGet [("name", CborValue.text "t1"),
        ("M1", CborValue.map [(.text "id", .integer 3)])] "triggered" = none from rfl] at hb
      exact Option.noConfusion hb)
    (by
      intro k v hm es he b hget
      rcases List.mem_cons.mp hm with h1 | h1
      · rw [(Prod.mk.injEq _ _ _ _).mp h1 |>.2] at he
        exact CborValue.noConfusion he
      · rcases List.mem_cons.mp h1 with h2 | h2
        · rw [(Prod.mk.injEq _ _ _ _).mp h2 |>.2] at he
          have hes := CborValue.map.inj he
          rw [← hes] at hget
          rw [show cborMapGetText [(CborValue.text "id", CborValue.integer 3)]
            "triggered" = none from rfl] at hget
          exact Option.noConfusion hget
        · exact absurd h2 (List.not_mem_nil _))
  have h2 := sensor_fallback_defaults
    [("name", .text "t1"), ("M1", .map [(.text "id", .integer 3)])] false
    (by
      intro b hb
      rw [show hashMapGet [("name", CborValue.text "t1"),
        ("M1", CborValue.map [(.text "id", .integer 3)])] "triggered" = none from rfl] at hb
      exact Option.noConfusion hb)
    (by
      intro k v hm es he b hget
      rcases List.mem_cons.mp hm with h1 | h1
      · rw [(Prod.mk.injEq _ _ _ _).mp h1 |>.2] at he
        exact CborValue.noConfusion he
      · rcases List.mem_cons.mp h1 with h2 | h2
        · rw [(Prod.mk.injEq _ _ _ _).mp h2 |>.2] at he
          have hes := CborValue.map.inj he
          rw [← hes] at hget
          rw [show cborMapGetText [(CborValue.text "id", CborValue.integer 3)]
            "triggered" = none from rfl] at hget
          exact Option.noConfusion hget
        · exact absurd h2 (List.not_mem_nil _))
  exact ⟨h.1, h2.2⟩

/-- C10 (amended): for every payload of at most 247 bytes the inner
frame is at most 253 bytes, the COBS encoder never needs a full group,
its output is exactly one byte longer than the inner frame, and the
buffer of inner length plus one that build_cobs_frame allocates
suffices: no panic. (Longer payloads can overflow the buffer, see the
counterexample.) -/
theorem build_cobs_no_panic_small :
    ∀ (a : Action) (c : Command) (payload : List Nat),
      payload.length ≤ 247 → (buildCobsFrame a c payload).isSome = true := by
  intro a c p h
  simp only [buildCobsFrame]
  set f2 := [a.toByte, c.toByte] ++ u16ToLeBytes (p.length % 65536) ++ p with hf2
  set fr := f2 ++ u16ToLeBytes (crc16Usb (f2.drop 2)) with hfr
  have hlen : fr.length = p.length + 6 := by
    simp [hfr, hf2, u16ToLeBytes]
  have hok : runsOkB 0 fr = true := runsOkB_of_le fr 0 (by omega)
  have heq : (cobsEncode fr).length = fr.length + 1 := by
    have h2 := cobsEncGo_length_eq fr [] (by simpa using hok)
    simpa [cobsEncode] using h2
  rw [if_pos (by omega : (cobsEncode fr).length ≤ fr.length + 1)]
  rfl

/-- C10 counterexample: a 300-byte payload of 0x01 bytes makes the inner
frame contain a run of over 254 non-zero bytes, the COBS encoding is at
least two bytes longer than the inner frame, the allocated buffer of
inner length plus one is too small, and cobs::encode panics (modelled as
none). -/
theorem build_cobs_panic_counterexample :
    buildCobsFrame .SEND .MOTOR (List.replicate 300 1) = none := by
  simp only [buildCobsFrame]
  set f2 := [Action.SEND.toByte, Command.MOTOR.toByte]
    ++ u16ToLeBytes ((List.replicate 300 (1 : Nat)).length % 65536)
    ++ List.replicate 300 1 with hf2
  set fr := f2 ++ u16ToLeBytes (crc16Usb (f2.drop 2)) with hfr
  have hu : u16ToLeBytes ((List.replicate 300 (1 : Nat)).length % 65536) =
      [0x2C, 0x01] := by
    rw [List.length_replicate]
    rfl
  have hlen : fr.length = 306 := by
    rw [hfr, hf2, hu]
    simp only [List.length_append, List.length_cons, List.length_nil,
      List.length_replicate, u16ToLeBytes]
  have hshape : fr = 0xAA :: 0x03 :: 0x2C :: 0x01 ::
      (List.replicate 300 1 ++ u16ToLeBytes (crc16Usb (f2.drop 2))) := by
    rw [hfr, hf2, hu]
    rfl
  have hbad : runsOkB 0 fr = false := by
    rw [hshape,
      runsOkB_cons_ne (by omega) (by omega), runsOkB_cons_ne (by omega) (by omega),
      runsOkB_cons_ne (by omega) (by omega), runsOkB_cons_ne (by omega) (by omega)]
    exact runsOkB_replicate_one 300 4 _ (by omega) (by omega)
  have hge := cobsEncGo_length_ge_two fr [] (by simpa using hbad)
  simp only [List.length_nil] at hge
  rw [if_neg (by simp only [cobsEncode]; omega)]

/-- C10 witness: the no-panic bound applied at a concrete 10-byte
payload. -/
theorem build_cobs_no_panic_small_witness :
    (List.replicate 10 (7 : Nat)).length ≤ 247 ∧
    (buildCobsFrame .READ .ACK (List.replicate 10 7)).isSome = true :=
  ⟨by decide, build_cobs_no_panic_small .READ .ACK (List.replicate 10 7) (by decide)⟩

/-- C6: in the NORMAL state a zero byte opens when no accumulation is in
progress (the buffer is also cleared and nothing is decoded), is a no-op
on an empty started buffer (the record stays open), and closes when
non-zero bytes have accumulated: the buffer goes through cobs::decode
(into a scratch one byte shorter whose tail stays zero) and
decode_message, the sensor update runs, the started flag clears and the
buffer resets; after a successful close the next zero opens again. A
COBS error at the closing delimiter is returned instead. -/
theorem zero_delimiter_transitions :
    ∀ st : GigaState,
      (processNormalByte st false 0 = .ok { st with buffer := [] } true none) ∧
      (st.buffer = [] → processNormalByte st true 0 =
        .ok { st with buffer := [] } true none) ∧
      (∀ f m, st.buffer ≠ [] → cobsDecode st.buffer = some f →
        decodeMessage (f ++ List.replicate (st.buffer.length - 1 - f.length) 0) = .ok m →
        processNormalByte st true 0 =
          .ok ⟨[], processSensor m.command m.payload st.isTriggered⟩ false (some m)) ∧
      (st.buffer ≠ [] → cobsDecode st.buffer = none →
        processNormalByte st true 0 = .fail .cobsDecodeErr) ∧
      (∀ st2 m, processNormalByte st true 0 = .ok st2 false (some m) →
        processNormalByte st2 false 0 = .ok { st2 with buffer := [] } true none) := by
  intro st
  refine ⟨rfl, ?_, ?_, ?_, ?_⟩
  · intro hbuf
    simp [processNormalByte, hbuf]
  · intro f m hne hcobs hdec
    have hpos : st.buffer.length > 0 := List.length_pos.mpr hne
    simp only [processNormalByte, if_pos rfl, Bool.not_true, Bool.false_eq_true,
      if_false, if_pos hpos, hcobs, hdec, if_true, hpos, gt_iff_lt]
  · intro hne hcobs
    have hpos : st.buffer.length > 0 := List.length_pos.mpr hne
    simp only [processNormalByte, if_pos rfl, Bool.not_true, Bool.false_eq_true,
      if_false, if_pos hpos, hcobs, if_true, hpos, gt_iff_lt]
  · intro st2 m _
    rfl

/-- C6 witness: the closing transition applied to a buffered concrete
COBS frame carrying the empty-map record, followed by the opening
transition. -/
theorem zero_delimiter_transitions_witness :
    cobsDecode [4, 170, 3, 1, 4, 160, 223, 135] =
      some [0xAA, 0x03, 0x01, 0x00, 0xA0, 0xDF, 0x87] ∧
    processNormalByte ⟨[4, 170, 3, 1, 4, 160, 223, 135], false⟩ true 0 =
      .ok ⟨[], false⟩ false (some {
        action := .SEND
        command := .MOTOR
        payloadSizeBytes := [0x01, 0x00]
        payloadSize := 1
        payloadBytes := [0xA0]
        payload := []
        crcBytes := [0xDF, 0x87]
        crc := 0x87DF }) ∧
    processNormalByte ⟨[], false⟩ false 0 = .ok ⟨[], false⟩ true none :=
  ⟨rfl,
    (zero_delimiter_transitions ⟨[4, 170, 3, 1, 4, 160, 223, 135], false⟩).2.2.1
      [0xAA, 0x03, 0x01, 0x00, 0xA0, 0xDF, 0x87] _ (by simp) rfl rfl,
    (zero_delimiter_transitions ⟨[], false⟩).1⟩

/-- C3 (amended): an error from process_normal_byte at a record boundary
(COBS decode error or any decode_message error) is propagated by the
question-mark operator and terminates the listen loop with that error,
leaving the buffer unreset. The loop also terminates when one of its
fallible port writes fails: the SEND/MOTOR write performed after a byte
closes a Sensor or SensorLOW record, and the READ/MOTOR heartbeat sent on
a read timeout in non-monitor mode. A timeout whose heartbeat succeeds
continues, as does any timeout in monitor mode (which sends none); a read
error with a successful reopen continues, and a reopen failure ends the
loop. -/
theorem listen_error_propagation :
    ∀ (sm : Bool) (st st2 : GigaState) (started s2 : Bool) (dbg : String)
      (rest : List ReadEvent) (b : Nat) (w : Bool) (e : ProcError)
      (rs : RxState) (m : Message),
      (¬b = 0x5b → processNormalByte st started b = .fail e →
        listenRun sm st started .normal dbg (.byte b w :: rest) = .failed e) ∧
      (¬b = 0x5b → processNormalByte st started b = .ok st2 s2 (some m) →
        m.command = .Sensor ∨ m.command = .SensorLOW →
        listenRun sm st started .normal dbg (.byte b false :: rest) =
          .writeFailed) ∧
      (listenRun sm st started rs dbg (.timeout true :: rest) =
        listenRun sm st started rs dbg rest) ∧
      (sm = false →
        listenRun sm st started rs dbg (.timeout false :: rest) = .writeFailed) ∧
      (sm = true →
        listenRun sm st started rs dbg (.timeout false :: rest) =
        listenRun sm st started rs dbg rest) ∧
      (listenRun sm st started rs dbg (.ioErr true :: rest) =
        listenRun sm st started rs dbg rest) ∧
      (listenRun sm st started rs dbg (.ioErr false :: rest) = .reopenFailed) := by
  intro sm st st2 started s2 dbg rest b w e rs m
  have hseq : debugSeq.getD 0 0 = 0x5b := rfl
  refine ⟨?_, ?_, ?_, ?_, ?_, ?_, rfl⟩
  · intro hb hfail
    simp only [listenRun, hseq, if_neg hb, hfail]
  · intro hb hok hcmd
    simp only [listenRun, hseq, if_neg hb, hok]
    simp [emitsSensorWrite, if_pos hcmd]
  · cases sm <;> rfl
  · intro h
    subst h
    rfl
  · intro h
    subst h
    rfl
  · rfl

/-- C3 counterexample: the byte stream open-delimiter, 0x01, close-
delimiter makes decode_message fail with the short-frame error and the
listen loop terminates with it instead of dropping the frame and
continuing. -/
theorem listen_drops_bad_frame_counterexample :
    listenRun false ⟨[], false⟩ false .normal ""
      [.byte 0 true, .byte 1 true, .byte 0 true] =
      .failed (.messageErr .shortFrame) := rfl

/-- C3 witness: the propagation cases at concrete inputs — a one-byte
record whose decode error ends the loop, a buffered Sensor frame whose
closing delimiter triggers the SEND/MOTOR write and whose write failure
ends the loop, and a timeout in non-monitor mode whose failed heartbeat
ends the loop. -/
theorem listen_error_propagation_witness :
    processNormalByte ⟨[1], false⟩ true 0 = .fail (.messageErr .shortFrame) ∧
    listenRun false ⟨[1], false⟩ true .normal "" [.byte 0 true] =
      .failed (.messageErr .shortFrame) ∧
    processNormalByte ⟨[4, 170, 6, 1, 4, 160, 223, 135], false⟩ true 0 =
      .ok ⟨[], false⟩ false (some {
        action := .SEND
        command := .Sensor
        payloadSizeBytes := [0x01, 0x00]
        payloadSize := 1
        payloadBytes := [0xA0]
        payload := []
        crcBytes := [0xDF, 0x87]
        crc := 0x87DF }) ∧
    listenRun false ⟨[4, 170, 6, 1, 4, 160, 223, 135], false⟩ true .normal ""
      [.byte 0 false] = .writeFailed ∧
    listenRun false ⟨[], false⟩ false .normal "" [.timeout false] = .writeFailed :=
  ⟨rfl,
    (listen_error_propagation false ⟨[1], false⟩ ⟨[], false⟩ true false "" [] 0
      true (.messageErr .shortFrame) .normal {
        action := .SEND
        command := .Sensor
        payloadSizeBytes := [0x01, 0x00]
        payloadSize := 1
        payloadBytes := [0xA0]
        payload := []
        crcBytes := [0xDF, 0x87]
        crc := 0x87DF }).1 (by decide) rfl,
    rfl,
    (listen_error_propagation false ⟨[4, 170, 6, 1, 4, 160, 223, 135], false⟩
      ⟨[], false⟩ true false "" [] 0 true (.messageErr .shortFrame) .normal {
        action := .SEND
        command := .Sensor
        payloadSizeBytes := [0x01, 0x00]
        payloadSize := 1
        payloadBytes := [0xA0]
        payload := []
        crcBytes := [0xDF, 0x87]
        crc := 0x87DF }).2.1 (by decide) rfl (Or.inl rfl),
    (listen_error_propagation false ⟨[], false⟩ ⟨[], false⟩ false false "" [] 0
      true (.messageErr .shortFrame) .normal {
        action := .SEND
        command := .Sensor
        payloadSizeBytes := [0x01, 0x00]
        payloadSize := 1
        payloadBytes := [0xA0]
        payload := []
        crcBytes := [0xDF, 0x87]
        crc := 0x87DF }).2.2.2.1 rfl⟩

/-- getD at the updated index when it is in range. -/
theorem getD_set_self {l : List Nat} {i a : Nat} (h : i < l.length) :
    (l.set i a).getD i 0 = a := by
  simp [List.getD_eq_getElem?_getD, List.getElem?_set, h]

/-- getD through drop. -/
theorem getD_drop {l : List Nat} {d j : Nat} :
    (l.drop d).getD j 0 = l.getD (d + j) 0 := by
  simp [List.getD_eq_getElem?_getD, List.getElem?_drop]

/-- Toggling one bit always changes a natural number. -/
theorem xor_pow_ne (x kk : Nat) : x ^^^ 2 ^ kk ≠ x := by
  intro h
  have h3 : 2 ^ kk = 0 := by
    have h2 := congrArg (fun y => x ^^^ y) h
    simp only [← Nat.xor_assoc, Nat.xor_self, Nat.zero_xor] at h2
    exact h2
  exact (Nat.two_pow_pos kk).ne' h3

/-- decode_message rejects with the CRC-mismatch error exactly when the
short and bounds checks pass, the declared payload CBOR-decodes, and the
stored little-endian CRC differs from the one computed over
frame[2..length-2]. -/
theorem decodeMessage_crc_fail {f : List Nat} {p : List (String × CborValue)}
    (h6 : ¬f.length < 6)
    (hsz : ¬f.length < 4 + u16FromLeBytes (f.getD 2 0) (f.getD 3 0))
    (hcb : cborFromSliceStringMap
      ((f.drop 4).take (u16FromLeBytes (f.getD 2 0) (f.getD 3 0))) = some p)
    (hne : u16FromLeBytes ((f.drop (f.length - 2)).getD 0 0)
        ((f.drop (f.length - 2)).getD 1 0) ≠
      crc16Usb ((f.drop 2).take (f.length - 4))) :
    decodeMessage f = .fail .crcMismatch := by
  simp only [decodeMessage, if_neg h6, if_neg hsz, hcb, if_pos hne]

/-- The checks an accepted frame passed, read back off the record. -/
theorem decodeMessage_ok_inversion {f : List Nat} {m : Message}
    (hok : decodeMessage f = .ok m) :
    ¬f.length < 6 ∧
    ¬f.length < 4 + u16FromLeBytes (f.getD 2 0) (f.getD 3 0) ∧
    cborFromSliceStringMap
      ((f.drop 4).take (u16FromLeBytes (f.getD 2 0) (f.getD 3 0))) = some m.payload ∧
    m.payloadSize = u16FromLeBytes (f.getD 2 0) (f.getD 3 0) ∧
    u16FromLeBytes ((f.drop (f.length - 2)).getD 0 0)
        ((f.drop (f.length - 2)).getD 1 0) =
      crc16Usb ((f.drop 2).take (f.length - 4)) := by
  simp only [decodeMessage] at hok
  split at hok
  · exact absurd hok (by simp)
  · rename_i h6
    split at hok
    · exact absurd hok (by simp)
    · rename_i hsz
      split at hok
      · exact absurd hok (by simp)
      · rename_i p hcb
        split at hok
        · exact absurd hok (by simp)
        · rename_i hcrc
          have hm := DecodeResult.ok.inj hok
          subst hm
          exact ⟨h6, hsz, hcb, rfl, not_ne_iff.mp hcrc⟩

/-- Toggling any bit of either stored CRC byte of an accepted frame whose
declared payload ends before the CRC field turns decoding into the
CRC-mismatch error: the computation window and the payload are unchanged
while the stored value moves. -/
theorem decodeMessage_crc_flip {frame : List Nat} {m : Message} {i k : Nat}
    (hok : decodeMessage frame = .ok m)
    (hsz : 4 + m.payloadSize + 2 ≤ frame.length)
    (hi : i = frame.length - 2 ∨ i = frame.length - 1) :
    decodeMessage (flipBitAt frame i k) = .fail .crcMismatch := by
  obtain ⟨h6, hsz2, hcb, hszm, heq⟩ := decodeMessage_ok_inversion hok
  rw [hszm] at hsz
  have hile : frame.length - 2 ≤ i ∧ i < frame.length := by
    rcases hi with h | h <;> omega
  have hi2 : ¬i = 2 := by omega
  have hi3 : ¬i = 3 := by omega
  apply decodeMessage_crc_fail (p := m.payload)
  · simpa only [flipBitAt, List.length_set] using h6
  · simp only [flipBitAt, List.length_set]
    rw [getD_set_ne hi2, getD_set_ne hi3]
    exact hsz2
  · simp only [flipBitAt, List.length_set]
    rw [getD_set_ne hi2, getD_set_ne hi3,
      drop_take_set_eq (by omega : 4 + u16FromLeBytes (frame.getD 2 0) (frame.getD 3 0) ≤ i)]
    exact hcb
  · simp only [flipBitAt, List.length_set]
    rw [drop_take_set_eq (by omega : 2 + (frame.length - 4) ≤ i)]
    rw [List.drop_set, if_neg (by omega : ¬i < frame.length - 2)]
    have hdl : (frame.drop (frame.length - 2)).length = 2 := by
      rw [List.length_drop]
      omega
    rcases hi with hI | hI
    · rw [show i - (frame.length - 2) = 0 from by omega]
      rw [getD_set_self (by omega), getD_set_ne (by omega : (0 : Nat) ≠ 1)]
      rw [hI]
      simp only [getD_drop, Nat.add_zero] at heq ⊢
      simp only [u16FromLeBytes] at heq ⊢
      have hx := xor_pow_ne (frame.getD (frame.length - 2) 0) k
      omega
    · rw [show i - (frame.length - 2) = 1 from by omega]
      rw [getD_set_ne (by omega : (1 : Nat) ≠ 0), getD_set_self (by omega)]
      rw [hI]
      simp only [getD_drop, Nat.add_zero] at heq ⊢
      rw [show frame.length - 2 + 1 = frame.length - 1 from by omega] at heq
      simp only [u16FromLeBytes] at heq ⊢
      have hx := xor_pow_ne (frame.getD (frame.length - 1) 0) k
      omega

/-- Toggling any bit of the action or command byte of an accepted frame
leaves decoding successful: neither byte is covered by the CRC. -/
theorem decodeMessage_head_flip_ok {frame : List Nat} {m : Message} {i k : Nat}
    (hok : decodeMessage frame = .ok m) (hi : i ≤ 1) :
    isOkResult (decodeMessage (flipBitAt frame i k)) = true := by
  have h := decodeMessage_ok_congr_head (f := flipBitAt frame i k) (g := frame)
    (by simp [flipBitAt])
    (by simp only [flipBitAt]; exact getD_set_ne (by omega))
    (by simp only [flipBitAt]; exact getD_set_ne (by omega))
    (by simp only [flipBitAt]; rw [List.drop_set, if_pos (by omega : i < 2)])
    hok
  rw [h]
  rfl

/-- C5 (amended): for every accepted inner frame whose declared payload
ends before the CRC field, flipping any single bit of either CRC byte
makes decode_message fail with the CRC-mismatch error, while flipping
any single bit of the action or command byte leaves decode_message
succeeding: the CRC covers neither of the first two bytes, so the claim
holds for the CRC field and fails for the action and command fields. -/
theorem single_bit_flip_crc :
    ∀ (frame : List Nat) (m : Message) (i k : Nat),
      decodeMessage frame = .ok m →
      4 + m.payloadSize + 2 ≤ frame.length →
      k < 8 →
      ((i = frame.length - 2 ∨ i = frame.length - 1) →
        decodeMessage (flipBitAt frame i k) = .fail .crcMismatch) ∧
      (i ≤ 1 → isOkResult (decodeMessage (flipBitAt frame i k)) = true) :=
  fun _ _ _ _ hok hsz _ =>
    ⟨fun hi => decodeMessage_crc_flip hok hsz hi,
     fun hi => decodeMessage_head_flip_ok hok hi⟩

/-- C5 counterexample: flipping bit 0 of the action byte of an accepted
frame produces a frame decode_message still accepts, not a CRC
mismatch. -/
theorem single_bit_flip_counterexample :
    isOkResult (decodeMessage [0xAA, 0x03, 0x01, 0x00, 0xA0, 0xDF, 0x87]) = true ∧
    flipBitAt [0xAA, 0x03, 0x01, 0x00, 0xA0, 0xDF, 0x87] 0 0 =
      [0xAB, 0x03, 0x01, 0x00, 0xA0, 0xDF, 0x87] ∧
    isOkResult (decodeMessage
      (flipBitAt [0xAA, 0x03, 0x01, 0x00, 0xA0, 0xDF, 0x87] 0 0)) = true ∧
    isCrcMismatch (decodeMessage
      (flipBitAt [0xAA, 0x03, 0x01, 0x00, 0xA0, 0xDF, 0x87] 0 0)) = false := by
  refine ⟨rfl, by decide, rfl, rfl⟩

/-- C5 witness: a CRC-byte flip rejected and an action-byte flip still
accepted, on a concrete frame. -/
theorem single_bit_flip_crc_witness :
    decodeMessage [0xAA, 0x03, 0x01, 0x00, 0xA0, 0xDF, 0x87] = .ok {
      action := .SEND
      command := .MOTOR
      payloadSizeBytes := [0x01, 0x00]
      payloadSize := 1
      payloadBytes := [0xA0]
      payload := []
      crcBytes := [0xDF, 0x87]
      crc := 0x87DF } ∧
    decodeMessage (flipBitAt [0xAA, 0x03, 0x01, 0x00, 0xA0, 0xDF, 0x87] 6 0) =
      .fail .crcMismatch ∧
    isOkResult (decodeMessage
      (flipBitAt [0xAA, 0x03, 0x01, 0x00, 0xA0, 0xDF, 0x87] 0 3)) = true :=
  ⟨rfl,
    (single_bit_flip_crc [0xAA, 0x03, 0x01, 0x00, 0xA0, 0xDF, 0x87] _ 6 0 rfl
      (by decide) (by omega)).1 (by decide),
    (single_bit_flip_crc [0xAA, 0x03, 0x01, 0x00, 0xA0, 0xDF, 0x87] _ 0 3 rfl
      (by decide) (by omega)).2 (by omega)⟩

/-- The four valid action discriminants parse back to themselves. -/
theorem actionTryFrom_toByte (a : Action) : actionTryFrom a.toByte = some a := by
  cases a <;> rfl

/-- The eight command discriminants parse back to themselves. -/
theorem commandTryFrom_toByte (c : Command) : commandTryFrom c.toByte = some c := by
  cases c <;> rfl

/-- decode_message on the inner frame build_cobs_frame assembles (two
enum bytes, little-endian length, payload, little-endian CRC over length
and payload) accepts and returns the record with the original fields. -/
theorem decodeMessage_built {a : Action} {c : Command} {payload : List Nat}
    {P : List (String × CborValue)}
    (hlen : payload.length < 65536)
    (hbytes : ∀ b ∈ payload, b < 256)
    (hcbor : cborFromSliceStringMap payload = some P) :
    decodeMessage (([a.toByte, c.toByte] ++ u16ToLeBytes (payload.length % 65536)
        ++ payload) ++ u16ToLeBytes (crc16Usb (([a.toByte, c.toByte]
        ++ u16ToLeBytes (payload.length % 65536) ++ payload).drop 2))) =
      .ok { action := a, command := c,
            payloadSizeBytes := u16ToLeBytes payload.length,
            payloadSize := payload.length,
            payloadBytes := payload, payload := P,
            crcBytes := u16ToLeBytes (crc16Usb (u16ToLeBytes payload.length ++ payload)),
            crc := crc16Usb (u16ToLeBytes payload.length ++ payload) } := by
  have hmod : payload.length % 65536 = payload.length := Nat.mod_eq_of_lt hlen
  rw [hmod]
  set L := payload.length with hL
  set CRC := crc16Usb (([a.toByte, c.toByte] ++ u16ToLeBytes L ++ payload).drop 2)
    with hCRC
  have hCRC2 : CRC = crc16Usb (u16ToLeBytes L ++ payload) := by
    rw [hCRC,
      show ([a.toByte, c.toByte] ++ u16ToLeBytes L ++ payload).drop 2 =
        u16ToLeBytes L ++ payload from rfl]
  have hframe : ([a.toByte, c.toByte] ++ u16ToLeBytes L ++ payload)
      ++ u16ToLeBytes CRC =
      a.toByte :: c.toByte :: (L % 256) :: (L / 256 % 256) ::
        (payload ++ u16ToLeBytes CRC) := rfl
  rw [hframe]
  have hlenF : (a.toByte :: c.toByte :: (L % 256) :: (L / 256 % 256) ::
      (payload ++ u16ToLeBytes CRC)).length = L + 6 := by
    simp only [List.length_cons, List.length_append, u16ToLeBytes,
      List.length_nil, hL]
  simp only [decodeMessage]
  rw [hlenF]
  rw [if_neg (by omega : ¬L + 6 < 6)]
  rw [show (a.toByte :: c.toByte :: (L % 256) :: (L / 256 % 256) ::
    (payload ++ u16ToLeBytes CRC)).getD 0 0 = a.toByte from rfl]
  rw [show (a.toByte :: c.toByte :: (L % 256) :: (L / 256 % 256) ::
    (payload ++ u16ToLeBytes CRC)).getD 1 0 = c.toByte from rfl]
  rw [show (a.toByte :: c.toByte :: (L % 256) :: (L / 256 % 256) ::
    (payload ++ u16ToLeBytes CRC)).getD 2 0 = L % 256 from rfl]
  rw [show (a.toByte :: c.toByte :: (L % 256) :: (L / 256 % 256) ::
    (payload ++ u16ToLeBytes CRC)).getD 3 0 = L / 256 % 256 from rfl]
  rw [actionTryFrom_toByte, commandTryFrom_toByte]
  have hsz : u16FromLeBytes (L % 256) (L / 256 % 256) = L := by
    simp only [u16FromLeBytes]
    omega
  rw [hsz]
  rw [if_neg (by omega : ¬L + 6 < 4 + L)]
  rw [show (a.toByte :: c.toByte :: (L % 256) :: (L / 256 % 256) ::
    (payload ++ u16ToLeBytes CRC)).drop 4 = payload ++ u16ToLeBytes CRC from rfl]
  rw [List.take_left' hL.symm]
  simp only [hcbor]
  have hdropC : (a.toByte :: c.toByte :: (L % 256) :: (L / 256 % 256) ::
      (payload ++ u16ToLeBytes CRC)).drop (4 + L) = u16ToLeBytes CRC := by
    rw [← List.drop_drop]
    rw [show (a.toByte :: c.toByte :: (L % 256) :: (L / 256 % 256) ::
      (payload ++ u16ToLeBytes CRC)).drop 4 = payload ++ u16ToLeBytes CRC from rfl]
    exact List.drop_left' hL.symm
  rw [show L + 6 - 2 = 4 + L from by omega, hdropC]
  rw [show (u16ToLeBytes CRC).getD 0 0 = CRC % 256 from rfl]
  rw [show (u16ToLeBytes CRC).getD 1 0 = CRC / 256 % 256 from rfl]
  have hcrclt : CRC < 65536 := by
    rw [hCRC2]
    apply crc16Usb_lt
    intro b hb
    rcases List.mem_append.mp hb with h | h
    · simp only [u16ToLeBytes, List.mem_cons, List.not_mem_nil, or_false] at h
      rcases h with h | h <;> subst h <;> omega
    · exact lt_of_lt_of_le (hbytes b h) (by norm_num)
  have hstored : u16FromLeBytes (CRC % 256) (CRC / 256 % 256) = CRC := by
    simp only [u16FromLeBytes]
    omega
  rw [hstored]
  rw [show L + 6 - 4 = L + 2 from by omega]
  have hcalc : ((a.toByte :: c.toByte :: (L % 256) :: (L / 256 % 256) ::
      (payload ++ u16ToLeBytes CRC)).drop 2).take (L + 2) =
      u16ToLeBytes L ++ payload := by
    rw [show (a.toByte :: c.toByte :: (L % 256) :: (L / 256 % 256) ::
      (payload ++ u16ToLeBytes CRC)).drop 2 =
      (u16ToLeBytes L ++ payload) ++ u16ToLeBytes CRC from rfl]
    exact List.take_left' (by
      simp only [List.length_append, u16ToLeBytes, List.length_cons,
        List.length_nil, hL]
      omega)
  rw [hcalc, ← hCRC2]
  rw [if_neg (by omega : ¬CRC ≠ CRC)]
  rfl

/-- parseCount for zero items. -/
theorem parseCount_zero {α : Type} (p : List Nat → Option (α × List Nat))
    (r : List Nat) : parseCount p 0 r = some ([], r) := rfl

/-- The key of the big test vector parses as the text "a". -/
theorem bigPayload_key_parse (n : Nat) (T : List Nat) :
    parseValue (n + 1) (0x61 :: 0x61 :: T) = some (.text "a", T) := by
  have hstep : parseValue (n + 1) (0x61 :: 0x61 :: T) =
      if (0x61 :: T).length < 1 then none
      else (decodeAsciiText ((0x61 :: T).take 1)).map
        (fun s => (.text s, (0x61 :: T).drop 1)) := rfl
  rw [hstep, if_neg (by simp)]
  rfl

/-- The value of the big test vector parses as a 65530-byte byte string,
consuming the rest of the input. -/
theorem parseValue_bytes4 (n b3 b2 b1 b0 : Nat) (R : List Nat) :
    parseValue (n + 1) (0x5A :: b3 :: b2 :: b1 :: b0 :: R) =
      if R.length < b3 * 256 ^ 3 + (b2 * 256 ^ 2 + (b1 * 256 ^ 1 + (b0 * 256 ^ 0 + 0)))
      then none
      else some (.bytes (R.take (b3 * 256 ^ 3 + (b2 * 256 ^ 2 + (b1 * 256 ^ 1
          + (b0 * 256 ^ 0 + 0))))),
        R.drop (b3 * 256 ^ 3 + (b2 * 256 ^ 2 + (b1 * 256 ^ 1
          + (b0 * 256 ^ 0 + 0))))) := rfl

theorem bigPayload_value_parse (n : Nat) (R : List Nat) (hR : R.length = 65530) :
    parseValue (n + 1) (0x5A :: 0x00 :: 0x00 :: 0xFF :: 0xFA :: R) =
    some (.bytes R, []) := by
  rw [parseValue_bytes4 n 0x00 0x00 0xFF 0xFA R]
  rw [if_neg (by omega : ¬ R.length <
    0 * 256 ^ 3 + (0 * 256 ^ 2 + (255 * 256 ^ 1 + (250 * 256 ^ 0 + 0))))]
  rw [List.take_of_length_le (by omega), List.drop_eq_nil_of_le (by omega)]

/-- The single key-value pair of the big test vector. -/
theorem bigPayload_pair_parse (n : Nat) (R : List Nat) (hR : R.length = 65530) :
    (parseValue (n + 1) (0x61 :: 0x61 :: 0x5A :: 0x00 :: 0x00 :: 0xFF :: 0xFA :: R)).bind
      (fun kr => (parseValue (n + 1) kr.2).map fun vr => ((kr.1, vr.1), vr.2)) =
    some ((CborValue.text "a", CborValue.bytes R), []) := by
  rw [bigPayload_key_parse n, Option.some_bind, bigPayload_value_parse n R hR]
  rfl

/-- parseCount for a single item unfolds to one call of the item parser. -/
theorem parseCount_one {q : Type} (p : List Nat → Option (q × List Nat))
    (r : List Nat) :
    parseCount p 1 r =
      (p r).bind fun vr =>
        (parseCount p 0 vr.2).map fun vsr => (vr.1 :: vsr.1, vsr.2) := rfl

/-- A CBOR map header of one entry dispatches to parseCount over the
key-value parser. -/
theorem parseValue_map1 (n : Nat) (T : List Nat) :
    parseValue (n + 1 + 1) (0xA1 :: T) =
      (parseCount (fun r => (parseValue (n + 1) r).bind fun kr =>
        (parseValue (n + 1) kr.2).map fun vr => ((kr.1, vr.1), vr.2)) 1 T).map
      (fun er => (CborValue.map er.1, er.2)) := rfl

/-- The big test vector parses as the singleton map, consuming the whole
input. -/
theorem bigPayload_parse (n : Nat) (R : List Nat) (hR : R.length = 65530) :
    parseValue (n + 1 + 1) (0xA1 :: 0x61 :: 0x61 :: 0x5A :: 0x00 :: 0x00 ::
      0xFF :: 0xFA :: R) =
    some (.map [(CborValue.text "a", CborValue.bytes R)], []) := by
  rw [parseValue_map1 n, parseCount_one]
  rw [bigPayload_pair_parse n R hR, Option.some_bind, parseCount_zero]
  rfl

/-- cbor_from_slice unfolded on its input: one parse with fuel one more
than the input length, then the map-with-text-keys check. -/
theorem cborFromSlice_unfold (l : List Nat) :
    cborFromSliceStringMap l =
      match parseValue (l.length + 1) l with
      | some (.map es, []) => stringMapOfEntries es
      | _ => none := rfl

/-- serde_cbor accepts the cons form of the big test vector as the map
from "a" to a 65530-byte byte string. -/
theorem cborFromSlice_bigShape (R : List Nat) (hR : R.length = 65530) :
    cborFromSliceStringMap (0xA1 :: 0x61 :: 0x61 :: 0x5A :: 0x00 :: 0x00 ::
      0xFF :: 0xFA :: R) =
    some [("a", CborValue.bytes R)] := by
  rw [cborFromSlice_unfold]
  rw [show (0xA1 :: 0x61 :: 0x61 :: 0x5A :: 0x00 :: 0x00 ::
      0xFF :: 0xFA :: R).length + 1 = 65537 + 1 + 1 from by
    simp only [List.length_cons]
    omega]
  rw [bigPayload_parse 65537 R hR]
  rfl

/-- serde_cbor accepts the big test vector as the map from "a" to the
65530-byte zero byte string: it is a CBOR-encoded text-keyed map. -/
theorem bigPayload_cbor :
    cborFromSliceStringMap bigPayload =
      some [("a", CborValue.bytes (List.replicate 65530 0))] :=
  cborFromSlice_bigShape (List.replicate 65530 0) (by rw [List.length_replicate])

/-- When the COBS run condition holds on the inner frame with CRC
appended, build_cobs_frame does not panic: the encoded output fills the
destination buffer exactly, so the returned vec is the encoding itself
with no zero padding. -/
theorem buildCobsFrame_ok (a : Action) (c : Command) (payload : List Nat)
    (hrun : runsOkB 0 (([a.toByte, c.toByte] ++ u16ToLeBytes (payload.length % 65536)
        ++ payload) ++ u16ToLeBytes (crc16Usb (([a.toByte, c.toByte]
        ++ u16ToLeBytes (payload.length % 65536) ++ payload).drop 2))) = true) :
    buildCobsFrame a c payload = some
      (cobsEncode (([a.toByte, c.toByte] ++ u16ToLeBytes (payload.length % 65536)
          ++ payload) ++ u16ToLeBytes (crc16Usb (([a.toByte, c.toByte]
          ++ u16ToLeBytes (payload.length % 65536) ++ payload).drop 2))),
        (([a.toByte, c.toByte] ++ u16ToLeBytes (payload.length % 65536)
          ++ payload) ++ u16ToLeBytes (crc16Usb (([a.toByte, c.toByte]
          ++ u16ToLeBytes (payload.length % 65536) ++ payload).drop 2))).length + 1,
        crc16Usb (([a.toByte, c.toByte]
          ++ u16ToLeBytes (payload.length % 65536) ++ payload).drop 2)) := by
  have hle : (cobsEncode (([a.toByte, c.toByte] ++ u16ToLeBytes (payload.length % 65536)
      ++ payload) ++ u16ToLeBytes (crc16Usb (([a.toByte, c.toByte]
      ++ u16ToLeBytes (payload.length % 65536) ++ payload).drop 2)))).length =
      (([a.toByte, c.toByte] ++ u16ToLeBytes (payload.length % 65536)
      ++ payload) ++ u16ToLeBytes (crc16Usb (([a.toByte, c.toByte]
      ++ u16ToLeBytes (payload.length % 65536) ++ payload).drop 2))).length + 1 := by
    have h := cobsEncGo_length_eq (([a.toByte, c.toByte]
      ++ u16ToLeBytes (payload.length % 65536)
      ++ payload) ++ u16ToLeBytes (crc16Usb (([a.toByte, c.toByte]
      ++ u16ToLeBytes (payload.length % 65536) ++ payload).drop 2))) []
      (by simpa using hrun)
    simpa [cobsEncode] using h
  simp only [buildCobsFrame]
  rw [if_pos (by omega)]
  rw [hle, Nat.sub_self, List.replicate_zero, List.append_nil]

/-- C2: for every action, every command, and every payload under the
65536-byte length field limit whose bytes are bytes and that CBOR-decodes
as a text-keyed map, whenever build_cobs_frame returns without panicking,
COBS-decoding the encoded_size bytes it produced and passing the result
to decode_message succeeds and reproduces the action, the command and
byte-identical payload bytes. The spec states this without the length
bound; the 65538-byte counterexample shows the bound is needed. -/
theorem cobs_round_trip (a : Action) (c : Command) (payload : List Nat)
    (P : List (String × CborValue))
    (hlen : payload.length < 65536)
    (hbytes : ∀ b ∈ payload, b < 256)
    (hcbor : cborFromSliceStringMap payload = some P) :
    roundtripReproduces a c payload := by
  intro enc sz crc hbuild
  simp only [buildCobsFrame] at hbuild
  split at hbuild
  · rw [Option.some.injEq, Prod.mk.injEq, Prod.mk.injEq] at hbuild
    obtain ⟨he, hs, hc⟩ := hbuild
    subst he
    subst hs
    rw [List.take_left' rfl]
    refine ⟨{
        action := a
        command := c
        payloadSizeBytes := u16ToLeBytes payload.length
        payloadSize := payload.length
        payloadBytes := payload
        payload := P
        crcBytes := u16ToLeBytes (crc16Usb (u16ToLeBytes payload.length ++ payload))
        crc := crc16Usb (u16ToLeBytes payload.length ++ payload) }, ?_, rfl, rfl, rfl⟩
    simp only [roundtripDecode, cobsDecode_cobsEncode, Option.some_bind]
    rw [decodeMessage_built hlen hbytes hcbor]
  · exact Option.noConfusion hbuild

/-- The length of the big test vector. -/
theorem bigPayload_length : bigPayload.length = 65538 := by
  show (0xA1 :: 0x61 :: 0x61 :: 0x5A :: 0x00 :: 0x00 :: 0xFF :: 0xFA ::
    List.replicate 65530 0).length = 65538
  rw [List.length_cons, List.length_cons, List.length_cons, List.length_cons,
    List.length_cons, List.length_cons, List.length_cons, List.length_cons,
    List.length_replicate]

/-- The u16 length field truncates the 65538-byte payload to 2. -/
theorem bigPayload_lenBytes : u16ToLeBytes (bigPayload.length % 65536) = [2, 0] := by
  rw [bigPayload_length]
  rfl

/-- The inner frame built over the big test vector, with any bytes
appended, in cons form. -/
theorem bigFrame_shape (cr : List Nat) :
    ([Action.SEND.toByte, Command.MOTOR.toByte] ++
      u16ToLeBytes (bigPayload.length % 65536) ++ bigPayload) ++ cr =
    0xAA :: 0x03 :: 2 :: 0 :: 0xA1 :: 0x61 :: 0x61 :: 0x5A :: 0x00 :: 0x00 ::
      0xFF :: 0xFA :: (List.replicate 65530 0 ++ cr) := by
  rw [bigPayload_lenBytes]
  simp only [bigPayload, Action.toByte, Command.toByte, List.cons_append,
    List.nil_append]

/-- The big frame never accumulates 254 consecutive non-zero bytes: its
long run is all zeros, so COBS encoding adds exactly one byte. -/
theorem bigFrame_runsOk (cr : List Nat) (hcr : cr.length ≤ 253) :
    runsOkB 0 (0xAA :: 0x03 :: 2 :: 0 :: 0xA1 :: 0x61 :: 0x61 :: 0x5A ::
      0x00 :: 0x00 :: 0xFF :: 0xFA :: (List.replicate 65530 0 ++ cr)) = true := by
  rw [runsOkB_cons_ne (by decide) (by decide),
    runsOkB_cons_ne (by decide) (by decide),
    runsOkB_cons_ne (by decide) (by decide),
    runsOkB_cons_zero,
    runsOkB_cons_ne (by decide) (by decide),
    runsOkB_cons_ne (by decide) (by decide),
    runsOkB_cons_ne (by decide) (by decide),
    runsOkB_cons_ne (by decide) (by decide),
    runsOkB_cons_zero, runsOkB_cons_zero,
    runsOkB_cons_ne (by decide) (by decide),
    runsOkB_cons_ne (by decide) (by decide),
    runsOkB_replicate_zero 65530 _ cr (by omega)]
  exact runsOkB_of_le cr 0 (by omega)

/-- decode_message on the big frame reads the truncated declared length 2,
takes the two-byte prefix 0xA1 0x61 of the CBOR document, and fails CBOR
deserialization: the prefix is not a complete CBOR item. -/
theorem bigFrame_decode_fails (cr : List Nat) (hcr : cr.length = 2) :
    decodeMessage (0xAA :: 0x03 :: 2 :: 0 :: 0xA1 :: 0x61 :: 0x61 :: 0x5A ::
      0x00 :: 0x00 :: 0xFF :: 0xFA :: (List.replicate 65530 0 ++ cr)) =
    .fail .cborError := by
  have hlenf : (0xAA :: 0x03 :: 2 :: 0 :: 0xA1 :: 0x61 :: 0x61 :: 0x5A ::
      0x00 :: 0x00 :: 0xFF :: 0xFA ::
      (List.replicate 65530 0 ++ cr)).length = 65544 := by
    rw [List.length_cons, List.length_cons, List.length_cons, List.length_cons,
      List.length_cons, List.length_cons, List.length_cons, List.length_cons,
      List.length_cons, List.length_cons, List.length_cons, List.length_cons,
      List.length_append, List.length_replicate, hcr]
  simp only [decodeMessage]
  rw [hlenf, if_neg (by omega : ¬(65544 : Nat) < 6)]
  rw [show (0xAA :: 0x03 :: 2 :: 0 :: 0xA1 :: 0x61 :: 0x61 :: 0x5A ::
    0x00 :: 0x00 :: 0xFF :: 0xFA ::
    (List.replicate 65530 0 ++ cr)).getD 0 0 = 0xAA from rfl]
  rw [show (0xAA :: 0x03 :: 2 :: 0 :: 0xA1 :: 0x61 :: 0x61 :: 0x5A ::
    0x00 :: 0x00 :: 0xFF :: 0xFA ::
    (List.replicate 65530 0 ++ cr)).getD 1 0 = 3 from rfl]
  rw [show (0xAA :: 0x03 :: 2 :: 0 :: 0xA1 :: 0x61 :: 0x61 :: 0x5A ::
    0x00 :: 0x00 :: 0xFF :: 0xFA ::
    (List.replicate 65530 0 ++ cr)).getD 2 0 = 2 from rfl]
  rw [show (0xAA :: 0x03 :: 2 :: 0 :: 0xA1 :: 0x61 :: 0x61 :: 0x5A ::
    0x00 :: 0x00 :: 0xFF :: 0xFA ::
    (List.replicate 65530 0 ++ cr)).getD 3 0 = 0 from rfl]
  rw [show u16FromLeBytes 2 0 = 2 from rfl]
  rw [if_neg (by omega : ¬(65544 : Nat) < 4 + 2)]
  rw [show ((0xAA :: 0x03 :: 2 :: 0 :: 0xA1 :: 0x61 :: 0x61 :: 0x5A ::
    0x00 :: 0x00 :: 0xFF :: 0xFA ::
    (List.replicate 65530 0 ++ cr)).drop 4).take 2 = [0xA1, 0x61] from rfl]
  rw [show cborFromSliceStringMap [0xA1, 0x61] = none from rfl]

/-- COBS encoding the big frame fills its destination buffer exactly. -/
theorem bigFrame_encLen : (([Action.SEND.toByte, Command.MOTOR.toByte] ++
      u16ToLeBytes (bigPayload.length % 65536) ++ bigPayload) ++
      u16ToLeBytes (crc16Usb (([Action.SEND.toByte, Command.MOTOR.toByte] ++
      u16ToLeBytes (bigPayload.length % 65536) ++ bigPayload).drop 2))).length + 1 =
    (cobsEncode (([Action.SEND.toByte, Command.MOTOR.toByte] ++
      u16ToLeBytes (bigPayload.length % 65536) ++ bigPayload) ++
      u16ToLeBytes (crc16Usb (([Action.SEND.toByte, Command.MOTOR.toByte] ++
      u16ToLeBytes (bigPayload.length % 65536) ++ bigPayload).drop 2)))).length := by
  have h2 := cobsEncGo_length_eq (([Action.SEND.toByte, Command.MOTOR.toByte] ++
    u16ToLeBytes (bigPayload.length % 65536) ++ bigPayload) ++
    u16ToLeBytes (crc16Usb (([Action.SEND.toByte, Command.MOTOR.toByte] ++
    u16ToLeBytes (bigPayload.length % 65536) ++ bigPayload).drop 2))) [] (by
      simp only [List.length_nil]
      rw [bigFrame_shape]
      exact bigFrame_runsOk _ (by
        simp only [u16ToLeBytes, List.length_cons, List.length_nil]
        omega))
  simp only [List.length_nil, cobsEncode] at h2 ⊢
  omega

/-- Whenever decode_message rejects the inner frame with the CBOR error,
the receive pipeline on its full COBS encoding yields no record. -/
theorem roundtripDecode_fails_of_cborError (f2 : List Nat) (m : Message)
    (hdm : decodeMessage f2 = .fail .cborError)
    (hdec : roundtripDecode ((cobsEncode f2).take (cobsEncode f2).length) = some m) :
    False := by
  rw [List.take_length] at hdec
  simp only [roundtripDecode, cobsDecode_cobsEncode, Option.some_bind] at hdec
  rw [hdm] at hdec
  exact Option.noConfusion hdec

/-- C2 counterexample: the 65538-byte CBOR map bigPayload is a well-formed
CBOR-encoded map, build_cobs_frame accepts it without panicking (the u16
length field silently truncates 65538 to 2), yet the round trip fails:
decode_message reads a declared payload of 2 bytes, and the 2-byte prefix
of the CBOR document is not a complete CBOR value, so deserialization
fails and no record is produced. -/
theorem cobs_round_trip_counterexample :
    cborFromSliceStringMap bigPayload =
      some [("a", CborValue.bytes (List.replicate 65530 0))] ∧
    ¬ roundtripReproduces Action.SEND Command.MOTOR bigPayload := by
  refine ⟨bigPayload_cbor, ?_⟩
  intro h
  obtain ⟨m, hdec, -, -, -⟩ := h _ _ _ (buildCobsFrame_ok Action.SEND Command.MOTOR
    bigPayload (by
      rw [bigFrame_shape]
      exact bigFrame_runsOk _ (by
        simp only [u16ToLeBytes, List.length_cons, List.length_nil]
        omega)))
  rw [bigFrame_encLen] at hdec
  exact roundtripDecode_fails_of_cborError _ m (by
    rw [bigFrame_shape]
    exact bigFrame_decode_fails _ rfl) hdec

/-- C2 witness: the concrete round trip for SEND, MOTOR and the one-byte
CBOR empty map 0xA0, through the claim theorem at its build output. -/
theorem cobs_round_trip_witness :
    buildCobsFrame Action.SEND Command.MOTOR [0xA0] =
      some ([4, 170, 3, 1, 4, 160, 223, 135], 8, 34783) ∧
    (∃ m, roundtripDecode ([4, 170, 3, 1, 4, 160, 223, 135].take 8) = some m ∧
      m.action = Action.SEND ∧ m.command = Command.MOTOR ∧
      m.payloadBytes = [0xA0]) :=
  ⟨rfl, cobs_round_trip Action.SEND Command.MOTOR [0xA0] [] (by decide) (by decide)
    rfl [4, 170, 3, 1, 4, 160, 223, 135] 8 34783 rfl⟩

end CborTest
